import Mathlib

set_option maxHeartbeats 1000000

/- Shallow embedding of the SCD (slowly changing dimension) versioning engine
   of the repository: the three strategy helpers of
   python/comparative_benchmark.py (counter `SCDHelper`,
   `TimestampVersioningHelper`, `FlagVersioningHelper`) acting on the
   jobs / jobs_ts / jobs_flag tables created by `setup_database`, and the
   generated Django helpers of python/django_example/scd/scd_helpers.py
   (`latest_scd_queryset`, `create_new_scd_version`) acting on the `Job`
   model of python/django_example/models.py.

   Modelling conventions:
   * a table is a `List` of rows in insertion order;
   * column types follow the CREATE TABLE statements of `setup_database`
     (`rate` is an INTEGER column there, hence `Int`); the Django `Job`
     model has the same columns, with `uid` a primary key that may be
     cleared to `None` before a save, hence `Option String` on the counter
     row type;
   * `datetime.now()` becomes an explicit `Nat` argument, `uuid.uuid4()`
     an explicit `String` argument;
   * python exceptions become values of the explicit error type `PyExc`;
     `raise Exception(...)` is the generic builtin Exception class;
   * every INSERT / save is checked against the uniqueness constraints the
     table declares; a violation is the psycopg2/Django `IntegrityError`;
   * the table name parameter of the python helpers is fixed to the jobs
     family of tables, whose column list (read from information_schema at
     run time in the source) is the constant `jobsColumns` below. -/

/-- A SQL value as passed around by the python code; the jobs columns are
VARCHAR or INTEGER, so strings and integers suffice. -/
inductive Val where
  | str (s : String)
  | int (n : Int)
  deriving DecidableEq, Repr

/-- The python exception classes that the embedded code can raise:
`raise Exception(msg)` (the generic builtin class used by the helpers for
missing records), the `TypeError` raised by subscripting `None`, and the
database driver's `IntegrityError` for violated uniqueness constraints. -/
inductive PyExc where
  | Exception (msg : String)
  | TypeError (msg : String)
  | IntegrityError (msg : String)
  deriving DecidableEq, Repr

/-- An exception is a generic failure when it is an instance of the bare
builtin `Exception` class rather than a more specific class. -/
def PyExc.isGeneric : PyExc → Bool
  | .Exception _ => true
  | _ => false

/-- A row of the counter-strategy `jobs` table (also the Django `Job`
model): columns id, version, uid, status, rate, title, company_id,
contractor_id.  `uid` is `Option` because the Django helper clears the
primary key to `None` before saving a copied row. -/
structure Row where
  id : String
  version : Int
  uid : Option String
  status : String
  rate : Int
  title : String
  company_id : String
  contractor_id : String
  deriving DecidableEq, Repr

/-- A row of the timestamp-strategy `jobs_ts` table: columns id,
created_at, uid, status, rate, title, company_id, contractor_id. -/
structure RowTS where
  id : String
  created_at : Nat
  uid : String
  status : String
  rate : Int
  title : String
  company_id : String
  contractor_id : String
  deriving DecidableEq, Repr

/-- A row of the flag-strategy `jobs_flag` table: columns id, version, uid,
is_current, status, rate, title, company_id, contractor_id. -/
structure RowFlag where
  id : String
  version : Int
  uid : String
  is_current : Bool
  status : String
  rate : Int
  title : String
  company_id : String
  contractor_id : String
  deriving DecidableEq, Repr

/-- The strategy-independent content of a row: the entity id plus the
business payload, without the version discriminator and without the `uid`
surrogate (the "uid / timestamp noise" of the spec). -/
structure Pay where
  id : String
  status : String
  rate : Int
  title : String
  company_id : String
  contractor_id : String
  deriving DecidableEq, Repr

def payC (r : Row) : Pay :=
  ⟨r.id, r.status, r.rate, r.title, r.company_id, r.contractor_id⟩

def payT (r : RowTS) : Pay :=
  ⟨r.id, r.status, r.rate, r.title, r.company_id, r.contractor_id⟩

def payF (r : RowFlag) : Pay :=
  ⟨r.id, r.status, r.rate, r.title, r.company_id, r.contractor_id⟩

/-- The column list of the jobs table, as `information_schema.columns`
returns it in ordinal position (see `setup_database`). -/
def jobsColumns : List String :=
  ["id", "version", "uid", "status", "rate", "title", "company_id",
   "contractor_id"]

/-- `updates.get(k)` on the python dict, modelled on an association list in
dict insertion order. -/
def updGet (upd : List (String × Val)) (k : String) : Option Val :=
  (upd.find? (fun kv => kv.1 == k)).map (·.2)

/-- `updates.get(k, default)` for a VARCHAR column.  A non-string value for
a string column would be rejected by the database at insert time; the
theorems below only ever instantiate updates at schema-correct values. -/
def getStr (v : Option Val) (d : String) : String :=
  match v with
  | some (.str s) => s
  | _ => d

/-- `updates.get(k, default)` for an INTEGER column. -/
def getInt (v : Option Val) (d : Int) : Int :=
  match v with
  | some (.int n) => n
  | _ => d

/-- One iteration of `SCDHelper.create_new_version`'s update loop:
`if col in columns: new_data[columns.index(col)] = value`.  A key that is
not a column of the jobs table falls through to the final `else` and is
ignored; a schema-incorrect value for a known column is likewise left to
the database (the theorems only use schema-correct updates). -/
def setCol (r : Row) (k : String) (v : Val) : Row :=
  if k = "id" then (match v with | .str s => { r with id := s } | _ => r)
  else if k = "version" then
    (match v with | .int n => { r with version := n } | _ => r)
  else if k = "uid" then
    (match v with | .str s => { r with uid := some s } | _ => r)
  else if k = "status" then
    (match v with | .str s => { r with status := s } | _ => r)
  else if k = "rate" then
    (match v with | .int n => { r with rate := n } | _ => r)
  else if k = "title" then
    (match v with | .str s => { r with title := s } | _ => r)
  else if k = "company_id" then
    (match v with | .str s => { r with company_id := s } | _ => r)
  else if k = "contractor_id" then
    (match v with | .str s => { r with contractor_id := s } | _ => r)
  else r

/-- The whole `for col, value in updates.items()` loop of
`SCDHelper.create_new_version`, in dict insertion order. -/
def applyUpdates : Row → List (String × Val) → Row
  | r, [] => r
  | r, kv :: rest => applyUpdates (setCol r kv.1 kv.2) rest

/-- The keys of an updates mapping. -/
def keysOf (upd : List (String × Val)) : List String :=
  upd.map (·.1)

/-- `SELECT * FROM t WHERE id = %s ORDER BY key DESC LIMIT 1` (`fetchone`)
over a table of rows with an id column `idOf` and an ordering column
`keyOf`: some row of the entity whose key is maximal, `none` when the
entity has no row. -/
def pickMax {α κ : Type} [LinearOrder κ] (idOf : α → String) (keyOf : α → κ) :
    List α → String → Option α
  | [], _ => none
  | r :: rest, idv =>
    match pickMax idOf keyOf rest idv with
    | none => if idOf r = idv then some r else none
    | some b => if idOf r = idv ∧ keyOf b < keyOf r then some r else some b

/-- `SELECT * FROM jobs WHERE id = %s ORDER BY version DESC LIMIT 1`
(`fetchone`): some row of the entity with maximal version, `none` when the
entity has no row.  Also models the Django
`model.objects.filter(id=id).order_by(-version).first()`. -/
def latestRow (db : List Row) (idv : String) : Option Row :=
  pickMax (·.id) (·.version) db idv

/-- `SELECT id, MAX(version) FROM jobs GROUP BY id`, per id: the maximal
version equals the version of a maximal row. -/
def maxVer (db : List Row) (idv : String) : Option Int :=
  (latestRow db idv).map (·.version)

/-- An INSERT into the jobs table, checked against its declared
constraints: `uid` VARCHAR UNIQUE PRIMARY KEY (hence NOT NULL) and
PRIMARY KEY (id, version). -/
def insertJobs (db : List Row) (r : Row) : Except PyExc (List Row) :=
  if r.uid = none then
    .error (.IntegrityError "null value in column uid")
  else if ∃ x ∈ db, x.uid = r.uid then
    .error (.IntegrityError "duplicate key value: jobs uid")
  else if ∃ x ∈ db, x.id = r.id ∧ x.version = r.version then
    .error (.IntegrityError "duplicate key value: jobs (id, version)")
  else
    .ok (db ++ [r])

/-- `SCDHelper.create_new_version`, split into its read phase and its
write phase: `dbRead` is the table state the SELECTs observe and `dbWrite`
the state the INSERT runs against.  In an isolated call the two states
coincide (see `SCDHelper.create_new_version`); a concurrent writer that
commits between the read and the write makes them differ. -/
def SCDHelper.create_split (dbRead dbWrite : List Row) (idv : String)
    (upd : List (String × Val)) (fresh : String) :
    Except PyExc (List Row) :=
  match latestRow dbRead idv with
  | none => .error (.Exception ("No record found with id " ++ idv))
  | some latest =>
    let r1 : Row := { latest with version := latest.version + 1 }
    let r2 : Row := applyUpdates r1 upd
    let r3 : Row := { r2 with uid := some fresh }
    insertJobs dbWrite r3

/-- `SCDHelper.create_new_version(table, id_value, updates)` against the
jobs table, with no interference between its read and its write.  The
python function returns `None`; the value here is the new committed table
state. -/
def SCDHelper.create_new_version (db : List Row) (idv : String)
    (upd : List (String × Val)) (fresh : String) :
    Except PyExc (List Row) :=
  SCDHelper.create_split db db idv upd fresh

/-- `SCDHelper.get_latest_versions`: the self-join of jobs against its
per-id maximal version, i.e. the rows whose version attains their id's
maximum. -/
def SCDHelper.get_latest_versions (db : List Row) : List Row :=
  db.filter (fun r => decide (maxVer db r.id = some r.version))

/-- A Django `save()` of a `Job` instance whose pk may have been cleared:
an INSERT checked against the model's constraints (`uid` is the NOT NULL
unique primary key; the Django model declares no uniqueness on
(id, version)). -/
def insertJob (db : List Row) (r : Row) : Except PyExc (List Row) :=
  if r.uid = none then
    .error (.IntegrityError "null value in column uid")
  else if ∃ x ∈ db, x.uid = r.uid then
    .error (.IntegrityError "duplicate key value: jobs pkey")
  else
    .ok (db ++ [r])

/-- The generated Django helper `create_new_scd_version(model, id,
update_fn)`: fetch the latest version, raise the generic
`Exception("Not found")` when there is none, copy it, clear the primary
key, increment the version, let the caller's `update_fn` mutate the copy
(the caller is also responsible for putting a fresh uid on it, since the
helper only clears the pk), save, and return the saved instance. -/
def create_new_scd_version (db : List Row) (idv : String)
    (update_fn : Row → Row) : Except PyExc (List Row × Row) :=
  match latestRow db idv with
  | none => .error (.Exception "Not found")
  | some latest =>
    let r0 : Row := { latest with uid := none, version := latest.version + 1 }
    let r : Row := update_fn r0
    match insertJob db r with
    | .error e => .error e
    | .ok db' => .ok (db', r)

/-- The generated Django helper `latest_scd_queryset(model, base_queryset)`:
filter the base queryset down to rows whose version equals the subquery
`model.objects.filter(id=OuterRef(id)).annotate(Max(version))`, i.e. the
per-id maximal version over the whole table. -/
def latest_scd_queryset (db : List Row) (base : Row → Bool) : List Row :=
  (db.filter base).filter (fun r => decide (maxVer db r.id = some r.version))

/-- `repos.find_active_jobs_by_company`: the latest queryset further
filtered on `status='active', company_id=company_id`. -/
def find_active_jobs_by_company (db : List Row) (company_id : String) :
    List Row :=
  (latest_scd_queryset db (fun _ => true)).filter
    (fun r => r.status == "active" && r.company_id == company_id)



/-- `SELECT * FROM jobs_ts WHERE id = %s ORDER BY created_at DESC LIMIT 1`
(`fetchone`) of `TimestampVersioningHelper.create_new_version`. -/
def latestRowTS (db : List RowTS) (idv : String) : Option RowTS :=
  pickMax (·.id) (·.created_at) db idv

/-- `SELECT id, MAX(created_at) FROM jobs_ts GROUP BY id`, per id. -/
def maxTS (db : List RowTS) (idv : String) : Option Nat :=
  (latestRowTS db idv).map (·.created_at)

/-- An INSERT into jobs_ts, checked against `uid` UNIQUE PRIMARY KEY and
PRIMARY KEY (id, created_at). -/
def insertTS (db : List RowTS) (r : RowTS) : Except PyExc (List RowTS) :=
  if ∃ x ∈ db, x.uid = r.uid then
    .error (.IntegrityError "duplicate key value: jobs_ts uid")
  else if ∃ x ∈ db, x.id = r.id ∧ x.created_at = r.created_at then
    .error (.IntegrityError "duplicate key value: jobs_ts (id, created_at)")
  else
    .ok (db ++ [r])

/-- `TimestampVersioningHelper.create_new_version`: read the latest row by
created_at, raise the generic Exception when there is none, and insert a
row at `datetime.now()` (the explicit argument `now`) whose status and
rate come from `updates.get` with the latest row's values as defaults and
whose remaining payload is copied from the latest row. -/
def TimestampVersioningHelper.create_new_version (db : List RowTS)
    (idv : String) (upd : List (String × Val)) (now : Nat) (fresh : String) :
    Except PyExc (List RowTS) :=
  match latestRowTS db idv with
  | none => .error (.Exception ("No record found with id " ++ idv))
  | some latest =>
    insertTS db
      ⟨idv, now, fresh, getStr (updGet upd "status") latest.status,
       getInt (updGet upd "rate") latest.rate, latest.title,
       latest.company_id, latest.contractor_id⟩

/-- `TimestampVersioningHelper.get_latest_versions`: the self-join of
jobs_ts against its per-id maximal created_at. -/
def TimestampVersioningHelper.get_latest_versions (db : List RowTS) :
    List RowTS :=
  db.filter (fun r => decide (maxTS db r.id = some r.created_at))

/-- The row image of the flag-clearing
`UPDATE jobs_flag SET is_current = false WHERE id = %s AND is_current = true`. -/
def clearIf (idv : String) (r : RowFlag) : RowFlag :=
  if r.id = idv ∧ r.is_current = true then { r with is_current := false }
  else r

/-- The per-id maximal version of jobs_flag, as a maximal row. -/
def latestRowF (db : List RowFlag) (idv : String) : Option RowFlag :=
  pickMax (·.id) (·.version) db idv

/-- `SELECT COALESCE(MAX(version), 0) FROM jobs_flag WHERE id = %s`. -/
def maxVerF (db : List RowFlag) (idv : String) : Int :=
  ((latestRowF db idv).map (·.version)).getD 0

/-- An INSERT into jobs_flag, checked against `uid` UNIQUE PRIMARY KEY and
PRIMARY KEY (id, version). -/
def insertFlag (db : List RowFlag) (r : RowFlag) :
    Except PyExc (List RowFlag) :=
  if ∃ x ∈ db, x.uid = r.uid then
    .error (.IntegrityError "duplicate key value: jobs_flag uid")
  else if ∃ x ∈ db, x.id = r.id ∧ x.version = r.version then
    .error (.IntegrityError "duplicate key value: jobs_flag (id, version)")
  else
    .ok (db ++ [r])

/-- `FlagVersioningHelper.create_new_version`: inside one transaction,
clear `is_current` on the entity's current rows, read
COALESCE(MAX(version), 0), fetch the row at that version, and insert the
derived row with `is_current = true` and version `max + 1`; commit.  When
the entity has no row the SELECT fetches `None` and the subsequent
`original[4]` subscript raises a python `TypeError`; nothing has been
committed at that point, and the error value carries the uncommitted
in-transaction state for specification purposes. -/
def FlagVersioningHelper.create_new_version (db : List RowFlag)
    (idv : String) (upd : List (String × Val)) (fresh : String) :
    Except (PyExc × List RowFlag) (List RowFlag) :=
  let db1 := db.map (clearIf idv)
  let maxv := maxVerF db1 idv
  match db1.find? (fun r => r.id == idv && r.version == maxv) with
  | none => .error (.TypeError "NoneType object is not subscriptable", db1)
  | some original =>
    match insertFlag db1
        ⟨idv, maxv + 1, fresh, true,
         getStr (updGet upd "status") original.status,
         getInt (updGet upd "rate") original.rate, original.title,
         original.company_id, original.contractor_id⟩ with
    | .error e => .error (e, db1)
    | .ok db2 => .ok db2

/-- `FlagVersioningHelper.get_latest_versions`:
`SELECT * FROM jobs_flag WHERE is_current = true`. -/
def FlagVersioningHelper.get_latest_versions (db : List RowFlag) :
    List RowFlag :=
  db.filter (fun r => r.is_current)

/-- The number of rows of an entity that are marked current. -/
def countCur (db : List RowFlag) (idv : String) : Nat :=
  (db.filter (fun r => r.id == idv && r.is_current)).length



/-- A sequence of `FlagVersioningHelper.create_new_version` calls, each
given by an entity id, an updates mapping and a fresh uid, committed one
after the other; the first failure aborts the sequence. -/
def runFlag : List (String × List (String × Val) × String) → List RowFlag →
    Except (PyExc × List RowFlag) (List RowFlag)
  | [], db => .ok db
  | op :: rest, db =>
    match FlagVersioningHelper.create_new_version db op.1 op.2.1 op.2.2 with
    | .error e => .error e
    | .ok db' => runFlag rest db'

/-- One `create_version` request as the benchmark issues it against all
three strategies at once: an entity id, the optional status / rate
updates, one fresh uid per table, and the `datetime.now()` value the
timestamp strategy observes for this call. -/
structure Op8 where
  oid : String
  st : Option String
  rt : Option Int
  uC : String
  uT : String
  uF : String
  tnow : Nat
  deriving DecidableEq, Repr

/-- The updates dict `{'status': ..., 'rate': ...}` of a request, with
absent fields omitted. -/
def updOf (op : Op8) : List (String × Val) :=
  (match op.st with | some s => [("status", Val.str s)] | none => []) ++
  (match op.rt with | some n => [("rate", Val.int n)] | none => [])

/-- A sequence of counter-strategy calls. -/
def runC8 : List Op8 → List Row → Except PyExc (List Row)
  | [], db => .ok db
  | op :: rest, db =>
    match SCDHelper.create_new_version db op.oid (updOf op) op.uC with
    | .error e => .error e
    | .ok db' => runC8 rest db'

/-- A sequence of timestamp-strategy calls. -/
def runT8 : List Op8 → List RowTS → Except PyExc (List RowTS)
  | [], db => .ok db
  | op :: rest, db =>
    match TimestampVersioningHelper.create_new_version db op.oid (updOf op)
        op.tnow op.uT with
    | .error e => .error e
    | .ok db' => runT8 rest db'

/-- A sequence of flag-strategy calls (benchmark form). -/
def runF8 : List Op8 → List RowFlag → Except (PyExc × List RowFlag)
    (List RowFlag)
  | [], db => .ok db
  | op :: rest, db =>
    match FlagVersioningHelper.create_new_version db op.oid (updOf op)
        op.uF with
    | .error e => .error e
    | .ok db' => runF8 rest db'

/-- `seed_data` for the jobs table: one version-1 row per entity with the
fixed seed payload; the per-row `uuid.uuid4()` values are modelled as
distinct tagged strings. -/
def seedC (ids : List String) : List Row :=
  ids.map (fun i =>
    ⟨i, 1, some ("uidC-" ++ i), "active", 100, "Engineer", "comp1", "cont1"⟩)

/-- `seed_data` for jobs_ts: one row per entity, all seeded at the initial
instant 0 of the modelled clock. -/
def seedT (ids : List String) : List RowTS :=
  ids.map (fun i =>
    ⟨i, 0, "uidT-" ++ i, "active", 100, "Engineer", "comp1", "cont1"⟩)

/-- `seed_data` for jobs_flag: one current version-1 row per entity. -/
def seedF (ids : List String) : List RowFlag :=
  ids.map (fun i =>
    ⟨i, 1, "uidF-" ++ i, true, "active", 100, "Engineer", "comp1", "cont1"⟩)

theorem pickMax_mem {α κ : Type} [LinearOrder κ] {idOf : α → String}
    {keyOf : α → κ} :
    ∀ {db : List α} {idv : String} {l : α},
      pickMax idOf keyOf db idv = some l → l ∈ db ∧ idOf l = idv := by
  intro db
  induction db with
  | nil => intro idv l h; simp [pickMax] at h
  | cons r rest ih =>
    intro idv l h
    cases hrec : pickMax idOf keyOf rest idv with
    | none =>
      simp only [pickMax, hrec] at h
      split at h
      · cases h
        exact ⟨List.mem_cons_self r rest, by assumption⟩
      · cases h
    | some b =>
      simp only [pickMax, hrec] at h
      split at h
      · cases h
        next hc => exact ⟨List.mem_cons_self r rest, hc.1⟩
      · cases h
        rcases ih hrec with ⟨hmem, hid⟩
        exact ⟨List.mem_cons_of_mem r hmem, hid⟩

theorem pickMax_eq_none_iff {α κ : Type} [LinearOrder κ] {idOf : α → String}
    {keyOf : α → κ} :
    ∀ {db : List α} {idv : String},
      pickMax idOf keyOf db idv = none ↔ ∀ r ∈ db, idOf r ≠ idv := by
  intro db
  induction db with
  | nil => intro idv; simp [pickMax]
  | cons r rest ih =>
    intro idv
    cases hrec : pickMax idOf keyOf rest idv with
    | none =>
      simp only [pickMax, hrec]
      constructor
      · intro h x hx
        split at h
        · cases h
        · rcases List.mem_cons.mp hx with rfl | hx'
          · assumption
          · exact ih.mp hrec x hx'
      · intro h
        rw [if_neg (h r (List.mem_cons_self r rest))]
    | some b =>
      simp only [pickMax, hrec]
      constructor
      · intro h
        split at h <;> cases h
      · intro h
        exact absurd hrec (by
          intro hc
          exact (h b (List.mem_cons_of_mem r (pickMax_mem hc).1))
            (pickMax_mem hc).2)

theorem pickMax_isSome {α κ : Type} [LinearOrder κ] {idOf : α → String}
    {keyOf : α → κ} {db : List α} {idv : String} {r : α}
    (hr : r ∈ db) (hid : idOf r = idv) :
    ∃ l, pickMax idOf keyOf db idv = some l := by
  cases h : pickMax idOf keyOf db idv with
  | none => exact absurd hid (pickMax_eq_none_iff.mp h r hr)
  | some l => exact ⟨l, rfl⟩

theorem pickMax_le {α κ : Type} [LinearOrder κ] {idOf : α → String}
    {keyOf : α → κ} :
    ∀ {db : List α} {idv : String} {l : α},
      pickMax idOf keyOf db idv = some l →
      ∀ r ∈ db, idOf r = idv → keyOf r ≤ keyOf l := by
  intro db
  induction db with
  | nil => intro idv l h; simp [pickMax] at h
  | cons r rest ih =>
    intro idv l h x hx hidx
    cases hrec : pickMax idOf keyOf rest idv with
    | none =>
      simp only [pickMax, hrec] at h
      split at h
      · cases h
        rcases List.mem_cons.mp hx with rfl | hx'
        · exact le_refl _
        · exact absurd hidx (pickMax_eq_none_iff.mp hrec x hx')
      · cases h
    | some b =>
      simp only [pickMax, hrec] at h
      split at h
      · cases h
        next hc =>
          rcases List.mem_cons.mp hx with rfl | hx'
          · exact le_refl _
          · exact le_of_lt (lt_of_le_of_lt (ih hrec x hx' hidx) hc.2)
      · cases h
        next hc =>
          rcases List.mem_cons.mp hx with rfl | hx'
          · rcases not_and_or.mp hc with hne | hnlt
            · exact absurd hidx hne
            · exact not_lt.mp hnlt
          · exact ih hrec x hx' hidx

theorem setCol_id (r : Row) (k : String) (v : Val) (h : k ≠ "id") :
    (setCol r k v).id = r.id := by
  unfold setCol
  split_ifs <;> first
    | rfl
    | (cases v <;> rfl)
    | (exact absurd (by assumption) h)

theorem setCol_version (r : Row) (k : String) (v : Val) (h : k ≠ "version") :
    (setCol r k v).version = r.version := by
  unfold setCol
  split_ifs <;> first
    | rfl
    | (cases v <;> rfl)
    | (exact absurd (by assumption) h)

theorem setCol_uid (r : Row) (k : String) (v : Val) (h : k ≠ "uid") :
    (setCol r k v).uid = r.uid := by
  unfold setCol
  split_ifs <;> first
    | rfl
    | (cases v <;> rfl)
    | (exact absurd (by assumption) h)

theorem setCol_status (r : Row) (k : String) (v : Val) (h : k ≠ "status") :
    (setCol r k v).status = r.status := by
  unfold setCol
  split_ifs <;> first
    | rfl
    | (cases v <;> rfl)
    | (exact absurd (by assumption) h)

theorem setCol_rate (r : Row) (k : String) (v : Val) (h : k ≠ "rate") :
    (setCol r k v).rate = r.rate := by
  unfold setCol
  split_ifs <;> first
    | rfl
    | (cases v <;> rfl)
    | (exact absurd (by assumption) h)

theorem setCol_title (r : Row) (k : String) (v : Val) (h : k ≠ "title") :
    (setCol r k v).title = r.title := by
  unfold setCol
  split_ifs <;> first
    | rfl
    | (cases v <;> rfl)
    | (exact absurd (by assumption) h)

theorem setCol_company (r : Row) (k : String) (v : Val)
    (h : k ≠ "company_id") : (setCol r k v).company_id = r.company_id := by
  unfold setCol
  split_ifs <;> first
    | rfl
    | (cases v <;> rfl)
    | (exact absurd (by assumption) h)

theorem setCol_contractor (r : Row) (k : String) (v : Val)
    (h : k ≠ "contractor_id") :
    (setCol r k v).contractor_id = r.contractor_id := by
  unfold setCol
  split_ifs <;> first
    | rfl
    | (cases v <;> rfl)
    | (exact absurd (by assumption) h)

theorem keysOf_cons (kv : String × Val) (rest : List (String × Val)) :
    keysOf (kv :: rest) = kv.1 :: keysOf rest := rfl

theorem applyUpdates_id (r : Row) (upd : List (String × Val))
    (h : "id" ∉ keysOf upd) : (applyUpdates r upd).id = r.id := by
  induction upd generalizing r with
  | nil => rfl
  | cons kv rest ih =>
    rw [keysOf_cons, List.mem_cons, not_or] at h
    rw [applyUpdates, ih (setCol r kv.1 kv.2) h.2]
    exact setCol_id r kv.1 kv.2 (Ne.symm h.1)

theorem applyUpdates_version (r : Row) (upd : List (String × Val))
    (h : "version" ∉ keysOf upd) :
    (applyUpdates r upd).version = r.version := by
  induction upd generalizing r with
  | nil => rfl
  | cons kv rest ih =>
    rw [keysOf_cons, List.mem_cons, not_or] at h
    rw [applyUpdates, ih (setCol r kv.1 kv.2) h.2]
    exact setCol_version r kv.1 kv.2 (Ne.symm h.1)

theorem applyUpdates_uid (r : Row) (upd : List (String × Val))
    (h : "uid" ∉ keysOf upd) : (applyUpdates r upd).uid = r.uid := by
  induction upd generalizing r with
  | nil => rfl
  | cons kv rest ih =>
    rw [keysOf_cons, List.mem_cons, not_or] at h
    rw [applyUpdates, ih (setCol r kv.1 kv.2) h.2]
    exact setCol_uid r kv.1 kv.2 (Ne.symm h.1)

theorem applyUpdates_status (r : Row) (upd : List (String × Val))
    (h : "status" ∉ keysOf upd) : (applyUpdates r upd).status = r.status := by
  induction upd generalizing r with
  | nil => rfl
  | cons kv rest ih =>
    rw [keysOf_cons, List.mem_cons, not_or] at h
    rw [applyUpdates, ih (setCol r kv.1 kv.2) h.2]
    exact setCol_status r kv.1 kv.2 (Ne.symm h.1)

theorem applyUpdates_rate (r : Row) (upd : List (String × Val))
    (h : "rate" ∉ keysOf upd) : (applyUpdates r upd).rate = r.rate := by
  induction upd generalizing r with
  | nil => rfl
  | cons kv rest ih =>
    rw [keysOf_cons, List.mem_cons, not_or] at h
    rw [applyUpdates, ih (setCol r kv.1 kv.2) h.2]
    exact setCol_rate r kv.1 kv.2 (Ne.symm h.1)

theorem applyUpdates_title (r : Row) (upd : List (String × Val))
    (h : "title" ∉ keysOf upd) : (applyUpdates r upd).title = r.title := by
  induction upd generalizing r with
  | nil => rfl
  | cons kv rest ih =>
    rw [keysOf_cons, List.mem_cons, not_or] at h
    rw [applyUpdates, ih (setCol r kv.1 kv.2) h.2]
    exact setCol_title r kv.1 kv.2 (Ne.symm h.1)

theorem applyUpdates_company (r : Row) (upd : List (String × Val))
    (h : "company_id" ∉ keysOf upd) :
    (applyUpdates r upd).company_id = r.company_id := by
  induction upd generalizing r with
  | nil => rfl
  | cons kv rest ih =>
    rw [keysOf_cons, List.mem_cons, not_or] at h
    rw [applyUpdates, ih (setCol r kv.1 kv.2) h.2]
    exact setCol_company r kv.1 kv.2 (Ne.symm h.1)

theorem applyUpdates_contractor (r : Row) (upd : List (String × Val))
    (h : "contractor_id" ∉ keysOf upd) :
    (applyUpdates r upd).contractor_id = r.contractor_id := by
  induction upd generalizing r with
  | nil => rfl
  | cons kv rest ih =>
    rw [keysOf_cons, List.mem_cons, not_or] at h
    rw [applyUpdates, ih (setCol r kv.1 kv.2) h.2]
    exact setCol_contractor r kv.1 kv.2 (Ne.symm h.1)

theorem insertJobs_ok {db : List Row} {r : Row} {db' : List Row} :
    insertJobs db r = .ok db' ↔
      r.uid ≠ none ∧ (¬∃ x ∈ db, x.uid = r.uid) ∧
      (¬∃ x ∈ db, x.id = r.id ∧ x.version = r.version) ∧ db' = db ++ [r] := by
  unfold insertJobs
  split_ifs with h1 h2 h3
  · simp [h1]
  · simp [h2]
  · simp [h3]
  · simp only [Except.ok.injEq]
    constructor
    · intro h
      exact ⟨h1, h2, h3, h.symm⟩
    · intro h
      exact h.2.2.2.symm

theorem insertJob_ok {db : List Row} {r : Row} {db' : List Row} :
    insertJob db r = .ok db' ↔
      r.uid ≠ none ∧ (¬∃ x ∈ db, x.uid = r.uid) ∧ db' = db ++ [r] := by
  unfold insertJob
  split_ifs with h1 h2
  · simp [h1]
  · simp [h2]
  · simp only [Except.ok.injEq]
    constructor
    · intro h
      exact ⟨h1, h2, h.symm⟩
    · intro h
      exact h.2.2.symm

theorem insertTS_ok {db : List RowTS} {r : RowTS} {db' : List RowTS} :
    insertTS db r = .ok db' ↔
      (¬∃ x ∈ db, x.uid = r.uid) ∧
      (¬∃ x ∈ db, x.id = r.id ∧ x.created_at = r.created_at) ∧
      db' = db ++ [r] := by
  unfold insertTS
  split_ifs with h1 h2
  · simp [h1]
  · simp [h2]
  · simp only [Except.ok.injEq]
    constructor
    · intro h
      exact ⟨h1, h2, h.symm⟩
    · intro h
      exact h.2.2.symm

theorem insertFlag_ok {db : List RowFlag} {r : RowFlag} {db' : List RowFlag} :
    insertFlag db r = .ok db' ↔
      (¬∃ x ∈ db, x.uid = r.uid) ∧
      (¬∃ x ∈ db, x.id = r.id ∧ x.version = r.version) ∧ db' = db ++ [r] := by
  unfold insertFlag
  split_ifs with h1 h2
  · simp [h1]
  · simp [h2]
  · simp only [Except.ok.injEq]
    constructor
    · intro h
      exact ⟨h1, h2, h.symm⟩
    · intro h
      exact h.2.2.symm

/-- The row `SCDHelper.create_new_version` derives and inserts: copy of the
latest row with the version bumped first, the update loop applied next,
and the fresh uid assigned last. -/
def derivedRow (latest : Row) (upd : List (String × Val)) (fresh : String) :
    Row :=
  { applyUpdates { latest with version := latest.version + 1 } upd with
    uid := some fresh }

theorem create_split_eq {dbR : List Row} (dbW : List Row) {idv : String}
    (upd : List (String × Val)) (fresh : String) {latest : Row}
    (hl : latestRow dbR idv = some latest) :
    SCDHelper.create_split dbR dbW idv upd fresh =
      insertJobs dbW (derivedRow latest upd fresh) := by
  unfold SCDHelper.create_split
  rw [show latestRow dbR idv = some latest from hl]
  rfl

theorem derivedRow_id {latest : Row} {upd : List (String × Val)}
    {fresh : String} (h : "id" ∉ keysOf upd) :
    (derivedRow latest upd fresh).id = latest.id := by
  unfold derivedRow
  exact applyUpdates_id _ upd h

theorem derivedRow_version {latest : Row} {upd : List (String × Val)}
    {fresh : String} (h : "version" ∉ keysOf upd) :
    (derivedRow latest upd fresh).version = latest.version + 1 := by
  unfold derivedRow
  exact applyUpdates_version _ upd h

theorem derivedRow_uid (latest : Row) (upd : List (String × Val))
    (fresh : String) : (derivedRow latest upd fresh).uid = some fresh := rfl

/-- Success of the counter-strategy create: when the entity exists, the
update names neither the id nor the version column, and the fresh uid is
unused, the call commits exactly the derived row at the end of the
table. -/
theorem create_new_version_ok {db : List Row} {idv : String}
    {upd : List (String × Val)} {fresh : String} {latest : Row}
    (hl : latestRow db idv = some latest)
    (hid : "id" ∉ keysOf upd) (hver : "version" ∉ keysOf upd)
    (hfresh : ∀ x ∈ db, x.uid ≠ some fresh) :
    SCDHelper.create_new_version db idv upd fresh =
      .ok (db ++ [derivedRow latest upd fresh]) := by
  have hmem := pickMax_mem hl
  rw [SCDHelper.create_new_version, create_split_eq db upd fresh hl,
    insertJobs_ok]
  refine ⟨by rw [derivedRow_uid]; simp, ?_, ?_, rfl⟩
  · rintro ⟨x, hx, hux⟩
    exact hfresh x hx (by rw [hux, derivedRow_uid])
  · rintro ⟨x, hx, hxid, hxver⟩
    have hle : x.version ≤ latest.version := by
      refine pickMax_le hl x hx ?_
      rw [hxid, derivedRow_id hid, hmem.2]
    rw [hxver, derivedRow_version hver] at hle
    omega

/-- Failure of the counter-strategy create on a missing entity: the
generic `Exception` with the "No record found" message. -/
theorem create_new_version_notfound {db : List Row} {idv : String}
    (upd : List (String × Val)) (fresh : String)
    (h : ∀ r ∈ db, r.id ≠ idv) :
    SCDHelper.create_new_version db idv upd fresh =
      .error (.Exception ("No record found with id " ++ idv)) := by
  have h0 : latestRow db idv = none := pickMax_eq_none_iff.mpr h
  rw [SCDHelper.create_new_version, SCDHelper.create_split, h0]

theorem applyUpdates_status_of_mem (r : Row) (upd : List (String × Val))
    (s : String) (hmem : ("status", Val.str s) ∈ upd)
    (hnd : (keysOf upd).Nodup) : (applyUpdates r upd).status = s := by
  induction upd generalizing r with
  | nil => cases hmem
  | cons kv rest ih =>
    rw [keysOf_cons, List.nodup_cons] at hnd
    rcases List.mem_cons.mp hmem with heq | hmem'
    · subst heq
      rw [applyUpdates, applyUpdates_status _ rest hnd.1]
      rfl
    · rw [applyUpdates]
      exact ih (setCol r kv.1 kv.2) hmem' hnd.2

theorem applyUpdates_rate_of_mem (r : Row) (upd : List (String × Val))
    (n : Int) (hmem : ("rate", Val.int n) ∈ upd)
    (hnd : (keysOf upd).Nodup) : (applyUpdates r upd).rate = n := by
  induction upd generalizing r with
  | nil => cases hmem
  | cons kv rest ih =>
    rw [keysOf_cons, List.nodup_cons] at hnd
    rcases List.mem_cons.mp hmem with heq | hmem'
    · subst heq
      rw [applyUpdates, applyUpdates_rate _ rest hnd.1]
      rfl
    · rw [applyUpdates]
      exact ih (setCol r kv.1 kv.2) hmem' hnd.2

theorem applyUpdates_title_of_mem (r : Row) (upd : List (String × Val))
    (s : String) (hmem : ("title", Val.str s) ∈ upd)
    (hnd : (keysOf upd).Nodup) : (applyUpdates r upd).title = s := by
  induction upd generalizing r with
  | nil => cases hmem
  | cons kv rest ih =>
    rw [keysOf_cons, List.nodup_cons] at hnd
    rcases List.mem_cons.mp hmem with heq | hmem'
    · subst heq
      rw [applyUpdates, applyUpdates_title _ rest hnd.1]
      rfl
    · rw [applyUpdates]
      exact ih (setCol r kv.1 kv.2) hmem' hnd.2

theorem applyUpdates_company_of_mem (r : Row) (upd : List (String × Val))
    (s : String) (hmem : ("company_id", Val.str s) ∈ upd)
    (hnd : (keysOf upd).Nodup) : (applyUpdates r upd).company_id = s := by
  induction upd generalizing r with
  | nil => cases hmem
  | cons kv rest ih =>
    rw [keysOf_cons, List.nodup_cons] at hnd
    rcases List.mem_cons.mp hmem with heq | hmem'
    · subst heq
      rw [applyUpdates, applyUpdates_company _ rest hnd.1]
      rfl
    · rw [applyUpdates]
      exact ih (setCol r kv.1 kv.2) hmem' hnd.2

theorem applyUpdates_contractor_of_mem (r : Row) (upd : List (String × Val))
    (s : String) (hmem : ("contractor_id", Val.str s) ∈ upd)
    (hnd : (keysOf upd).Nodup) : (applyUpdates r upd).contractor_id = s := by
  induction upd generalizing r with
  | nil => cases hmem
  | cons kv rest ih =>
    rw [keysOf_cons, List.nodup_cons] at hnd
    rcases List.mem_cons.mp hmem with heq | hmem'
    · subst heq
      rw [applyUpdates, applyUpdates_contractor _ rest hnd.1]
      rfl
    · rw [applyUpdates]
      exact ih (setCol r kv.1 kv.2) hmem' hnd.2

theorem clearIf_id (idv : String) (r : RowFlag) : (clearIf idv r).id = r.id := by
  unfold clearIf
  split_ifs <;> rfl

theorem clearIf_version (idv : String) (r : RowFlag) :
    (clearIf idv r).version = r.version := by
  unfold clearIf
  split_ifs <;> rfl

theorem clearIf_uid (idv : String) (r : RowFlag) :
    (clearIf idv r).uid = r.uid := by
  unfold clearIf
  split_ifs <;> rfl

theorem clearIf_pay (idv : String) (r : RowFlag) :
    payF (clearIf idv r) = payF r := by
  unfold clearIf payF
  split_ifs <;> rfl

theorem clearIf_not_cur (idv : String) (r : RowFlag) (h : r.id = idv) :
    (clearIf idv r).is_current = false := by
  unfold clearIf
  split_ifs with hc
  · rfl
  · cases hcur : r.is_current
    · rfl
    · exact absurd ⟨h, hcur⟩ hc

theorem clearIf_other (idv : String) (r : RowFlag) (h : r.id ≠ idv) :
    clearIf idv r = r := by
  unfold clearIf
  rw [if_neg]
  rintro ⟨h1, _⟩
  exact h h1

/-- Success of the timestamp-strategy create: when the entity exists, the
given `now` lies strictly after every timestamp the entity already has,
and the uid is unused, the call commits exactly the derived row. -/
theorem ts_create_ok {db : List RowTS} {idv : String}
    (upd : List (String × Val)) {now : Nat} {fresh : String} {latest : RowTS}
    (hl : latestRowTS db idv = some latest)
    (hfresh : ∀ x ∈ db, x.uid ≠ fresh)
    (hnow : ∀ x ∈ db, x.id = idv → x.created_at < now) :
    TimestampVersioningHelper.create_new_version db idv upd now fresh =
      .ok (db ++
        [⟨idv, now, fresh, getStr (updGet upd "status") latest.status,
          getInt (updGet upd "rate") latest.rate, latest.title,
          latest.company_id, latest.contractor_id⟩]) := by
  rw [TimestampVersioningHelper.create_new_version,
    show latestRowTS db idv = some latest from hl]
  rw [insertTS_ok]
  refine ⟨?_, ?_, rfl⟩
  · rintro ⟨x, hx, hux⟩
    exact hfresh x hx hux
  · rintro ⟨x, hx, hxid, hxt⟩
    exact absurd hxt (Nat.ne_of_lt (hnow x hx hxid))

/-- Failure of the timestamp-strategy create on a missing entity. -/
theorem ts_create_notfound {db : List RowTS} {idv : String}
    (upd : List (String × Val)) (now : Nat) (fresh : String)
    (h : ∀ r ∈ db, r.id ≠ idv) :
    TimestampVersioningHelper.create_new_version db idv upd now fresh =
      .error (.Exception ("No record found with id " ++ idv)) := by
  have h0 : latestRowTS db idv = none := pickMax_eq_none_iff.mpr h
  rw [TimestampVersioningHelper.create_new_version, h0]

/-- Success of the flag-strategy create: when the entity exists and the
fresh uid is unused, the call commits the cleared table followed by the
new current row, whose payload is derived from the row the inner SELECT
fetched at the entity's maximal version. -/
theorem flag_create_ok {db : List RowFlag} {idv : String}
    (upd : List (String × Val)) {fresh : String}
    (hex : ∃ r ∈ db, r.id = idv)
    (hfresh : ∀ x ∈ db, x.uid ≠ fresh) :
    ∃ o ∈ db.map (clearIf idv), o.id = idv ∧
      o.version = maxVerF (db.map (clearIf idv)) idv ∧
      FlagVersioningHelper.create_new_version db idv upd fresh =
        .ok (db.map (clearIf idv) ++
          [⟨idv, maxVerF (db.map (clearIf idv)) idv + 1, fresh, true,
            getStr (updGet upd "status") o.status,
            getInt (updGet upd "rate") o.rate, o.title, o.company_id,
            o.contractor_id⟩]) := by
  rcases hex with ⟨r, hr, hrid⟩
  have hr1 : clearIf idv r ∈ db.map (clearIf idv) := List.mem_map_of_mem _ hr
  have hid1 : (clearIf idv r).id = idv := by rw [clearIf_id, hrid]
  rcases @pickMax_isSome RowFlag Int _ (·.id) (·.version)
    (db.map (clearIf idv)) idv (clearIf idv r) hr1 hid1 with ⟨l, hl⟩
  have hlmem := pickMax_mem hl
  have hmax : maxVerF (db.map (clearIf idv)) idv = l.version := by
    rw [maxVerF, show latestRowF (db.map (clearIf idv)) idv = some l from hl]
    rfl
  have hfind : ∃ o, (db.map (clearIf idv)).find?
      (fun x => x.id == idv && x.version == maxVerF (db.map (clearIf idv)) idv)
      = some o := by
    rw [← Option.isSome_iff_exists, List.find?_isSome]
    refine ⟨l, hlmem.1, ?_⟩
    rw [hmax]
    simp [hlmem.2]
  rcases hfind with ⟨o, ho⟩
  have homem := List.mem_of_find?_eq_some ho
  have hop := List.find?_some ho
  rw [Bool.and_eq_true, beq_iff_eq, beq_iff_eq] at hop
  refine ⟨o, homem, hop.1, hop.2, ?_⟩
  rw [FlagVersioningHelper.create_new_version]
  simp only [ho]
  have hins : insertFlag (db.map (clearIf idv))
      ⟨idv, maxVerF (db.map (clearIf idv)) idv + 1, fresh, true,
        getStr (updGet upd "status") o.status,
        getInt (updGet upd "rate") o.rate, o.title, o.company_id,
        o.contractor_id⟩ =
      .ok (db.map (clearIf idv) ++
        [⟨idv, maxVerF (db.map (clearIf idv)) idv + 1, fresh, true,
          getStr (updGet upd "status") o.status,
          getInt (updGet upd "rate") o.rate, o.title, o.company_id,
          o.contractor_id⟩]) := by
    rw [insertFlag_ok]
    refine ⟨?_, ?_, rfl⟩
    · rintro ⟨x, hx, hux⟩
      rcases List.mem_map.mp hx with ⟨y, hy, rfl⟩
      rw [clearIf_uid] at hux
      exact hfresh y hy hux
    · rintro ⟨x, hx, hxid, hxver⟩
      have hxid' : x.id = idv := hxid
      have hv : x.version = maxVerF (db.map (clearIf idv)) idv + 1 := hxver
      rw [hmax] at hv
      have hle : x.version ≤ l.version := pickMax_le hl x hx hxid'
      omega
  rw [hins]

theorem map_clearIf_of_absent {db : List RowFlag} {idv : String}
    (h : ∀ r ∈ db, r.id ≠ idv) : db.map (clearIf idv) = db := by
  induction db with
  | nil => rfl
  | cons r rest ih =>
    rw [List.map_cons, clearIf_other idv r (h r (List.mem_cons_self r rest)),
      ih (fun x hx => h x (List.mem_cons_of_mem r hx))]

/-- Failure shape of the flag-strategy create on a missing entity: the
flag-clearing UPDATE has been issued inside the open transaction (it
matches no row, so the pending state equals the table), the MAX query
COALESCEs to 0, the SELECT at version 0 fetches `None`, and `original[4]`
raises the python `TypeError`; nothing is committed. -/
theorem flag_create_notfound {db : List RowFlag} {idv : String}
    (upd : List (String × Val)) (fresh : String)
    (h : ∀ r ∈ db, r.id ≠ idv) :
    FlagVersioningHelper.create_new_version db idv upd fresh =
      .error (.TypeError "NoneType object is not subscriptable",
        db.map (clearIf idv)) ∧
    db.map (clearIf idv) = db := by
  have hmap := map_clearIf_of_absent h
  have hfind : (db.map (clearIf idv)).find?
      (fun r => r.id == idv &&
        r.version == maxVerF (db.map (clearIf idv)) idv) = none := by
    rw [List.find?_eq_none]
    intro x hx
    rcases List.mem_map.mp hx with ⟨y, hy, rfl⟩
    simp [clearIf_id, h y hy]
  refine ⟨?_, hmap⟩
  simp only [FlagVersioningHelper.create_new_version, hfind]

/-- Success of the Django `create_new_scd_version`: when the entity exists
and `update_fn` leaves a fresh unused uid on the copied row, the helper
saves exactly `update_fn` applied to the pk-cleared, version-bumped copy
of the latest row, and returns that saved row. -/
theorem django_create_ok {db : List Row} {idv : String} {f : Row → Row}
    {latest : Row} {fresh : String}
    (hl : latestRow db idv = some latest)
    (huid : (f { latest with uid := none, version := latest.version + 1 }).uid
      = some fresh)
    (hfresh : ∀ x ∈ db, x.uid ≠ some fresh) :
    create_new_scd_version db idv f =
      .ok (db ++ [f { latest with uid := none, version := latest.version + 1 }],
        f { latest with uid := none, version := latest.version + 1 }) := by
  have hins : insertJob db
      (f { latest with uid := none, version := latest.version + 1 }) =
      .ok (db ++
        [f { latest with uid := none, version := latest.version + 1 }]) := by
    rw [insertJob_ok]
    refine ⟨by rw [huid]; simp, ?_, rfl⟩
    rintro ⟨x, hx, hux⟩
    rw [huid] at hux
    exact hfresh x hx hux
  simp only [create_new_scd_version, hl, hins]

/-- Failure of the Django `create_new_scd_version` on a missing entity:
the generic `Exception("Not found")`. -/
theorem django_create_notfound {db : List Row} {idv : String}
    (f : Row → Row) (h : ∀ r ∈ db, r.id ≠ idv) :
    create_new_scd_version db idv f = .error (.Exception "Not found") := by
  have h0 : latestRow db idv = none := pickMax_eq_none_iff.mpr h
  simp only [create_new_scd_version, h0]

theorem setCol_swap_uid (b : Row) (u : Option String) (k : String) (v : Val)
    (h : k ≠ "uid") :
    setCol { b with uid := u } k v = { setCol b k v with uid := u } := by
  unfold setCol
  split_ifs <;> first
    | rfl
    | (cases v <;> rfl)
    | (exact absurd (by assumption) h)

theorem applyUpdates_swap_uid (b : Row) (u : Option String)
    (upd : List (String × Val)) (h : "uid" ∉ keysOf upd) :
    applyUpdates { b with uid := u } upd =
      { applyUpdates b upd with uid := u } := by
  induction upd generalizing b with
  | nil => rfl
  | cons kv rest ih =>
    rw [keysOf_cons, List.mem_cons, not_or] at h
    rw [applyUpdates, setCol_swap_uid b u kv.1 kv.2 (Ne.symm h.1),
      ih (setCol b kv.1 kv.2) h.2]
    rw [applyUpdates]

/-- C1: for every id that already has at least one version row, passing a
well-formed partial update (business columns with schema-correct values,
distinct keys) and an unused fresh uid, `SCDHelper.create_new_version`
inserts exactly one new row whose fields are copied from the current
(maximal-version) row, with exactly the fields named in the update
overwritten, the version incremented by one and a new uid assigned; and
the Django `create_new_scd_version`, called with the update function that
applies the same partial update and puts the fresh uid on the pk-cleared
copy, commits that same row and returns it as the newly inserted row. -/
theorem claim_C1 (db : List Row) (idv : String) (upd : List (String × Val))
    (fresh : String) (latest : Row)
    (hl : latestRow db idv = some latest)
    (hok : ∀ kv ∈ upd,
      (kv.1 = "status" ∧ ∃ s, kv.2 = Val.str s) ∨
      (kv.1 = "rate" ∧ ∃ n, kv.2 = Val.int n) ∨
      (kv.1 = "title" ∧ ∃ s, kv.2 = Val.str s) ∨
      (kv.1 = "company_id" ∧ ∃ s, kv.2 = Val.str s) ∨
      (kv.1 = "contractor_id" ∧ ∃ s, kv.2 = Val.str s))
    (hnd : (keysOf upd).Nodup)
    (hfresh : ∀ x ∈ db, x.uid ≠ some fresh) :
    ∃ nr,
      SCDHelper.create_new_version db idv upd fresh = .ok (db ++ [nr]) ∧
      nr.id = latest.id ∧ nr.version = latest.version + 1 ∧
      nr.uid = some fresh ∧
      ("status" ∉ keysOf upd → nr.status = latest.status) ∧
      (∀ s, ("status", Val.str s) ∈ upd → nr.status = s) ∧
      ("rate" ∉ keysOf upd → nr.rate = latest.rate) ∧
      (∀ n, ("rate", Val.int n) ∈ upd → nr.rate = n) ∧
      ("title" ∉ keysOf upd → nr.title = latest.title) ∧
      (∀ s, ("title", Val.str s) ∈ upd → nr.title = s) ∧
      ("company_id" ∉ keysOf upd → nr.company_id = latest.company_id) ∧
      (∀ s, ("company_id", Val.str s) ∈ upd → nr.company_id = s) ∧
      ("contractor_id" ∉ keysOf upd →
        nr.contractor_id = latest.contractor_id) ∧
      (∀ s, ("contractor_id", Val.str s) ∈ upd → nr.contractor_id = s) ∧
      create_new_scd_version db idv
        (fun r => { applyUpdates r upd with uid := some fresh }) =
        .ok (db ++ [nr], nr) := by
  have hkey : ∀ k ∈ keysOf upd,
      k = "status" ∨ k = "rate" ∨ k = "title" ∨ k = "company_id" ∨
      k = "contractor_id" := by
    intro k hk
    rcases List.mem_map.mp hk with ⟨kv, hkv, rfl⟩
    rcases hok kv hkv with ⟨h, _⟩ | ⟨h, _⟩ | ⟨h, _⟩ | ⟨h, _⟩ | ⟨h, _⟩ <;>
      simp [h]
  have hid : "id" ∉ keysOf upd := by
    intro hmem
    rcases hkey _ hmem with h | h | h | h | h <;> simp at h
  have hver : "version" ∉ keysOf upd := by
    intro hmem
    rcases hkey _ hmem with h | h | h | h | h <;> simp at h
  have huid : "uid" ∉ keysOf upd := by
    intro hmem
    rcases hkey _ hmem with h | h | h | h | h <;> simp at h
  refine ⟨derivedRow latest upd fresh,
    create_new_version_ok hl hid hver hfresh,
    derivedRow_id hid, derivedRow_version hver, rfl,
    fun h => applyUpdates_status _ upd h,
    fun s hs => applyUpdates_status_of_mem _ upd s hs hnd,
    fun h => applyUpdates_rate _ upd h,
    fun n hn => applyUpdates_rate_of_mem _ upd n hn hnd,
    fun h => applyUpdates_title _ upd h,
    fun s hs => applyUpdates_title_of_mem _ upd s hs hnd,
    fun h => applyUpdates_company _ upd h,
    fun s hs => applyUpdates_company_of_mem _ upd s hs hnd,
    fun h => applyUpdates_contractor _ upd h,
    fun s hs => applyUpdates_contractor_of_mem _ upd s hs hnd, ?_⟩
  have hbase : ({ latest with uid := none, version := latest.version + 1 } : Row) = { { latest with version := latest.version + 1 } with uid := none } := rfl
  have hswap : ({ applyUpdates { latest with uid := none, version := latest.version + 1 } upd with uid := some fresh } : Row) = derivedRow latest upd fresh := by
    rw [hbase, applyUpdates_swap_uid _ none upd huid]
    rfl
  have hdj := @django_create_ok db idv
    (fun r => { applyUpdates r upd with uid := some fresh }) latest fresh hl
    rfl hfresh
  simp only [] at hdj
  rw [hswap] at hdj
  exact hdj

/-- Witness for C1: one seeded row for `job1`, updating status and rate. -/
theorem claim_C1_witness :
    ∃ nr,
      SCDHelper.create_new_version
        [⟨"job1", 1, some "u1", "active", 100, "Engineer", "comp1", "cont1"⟩]
        "job1" [("status", Val.str "updated"), ("rate", Val.int 150)] "u2" =
        .ok ([⟨"job1", 1, some "u1", "active", 100, "Engineer", "comp1",
          "cont1"⟩] ++ [nr]) ∧
      nr.id = "job1" ∧ nr.version = 2 ∧ nr.uid = some "u2" ∧
      ("status" ∉ keysOf [("status", Val.str "updated"),
        ("rate", Val.int 150)] → nr.status = "active") ∧
      (∀ s, ("status", Val.str s) ∈ [("status", Val.str "updated"),
        ("rate", Val.int 150)] → nr.status = s) ∧
      ("rate" ∉ keysOf [("status", Val.str "updated"),
        ("rate", Val.int 150)] → nr.rate = 100) ∧
      (∀ n, ("rate", Val.int n) ∈ [("status", Val.str "updated"),
        ("rate", Val.int 150)] → nr.rate = n) ∧
      ("title" ∉ keysOf [("status", Val.str "updated"),
        ("rate", Val.int 150)] → nr.title = "Engineer") ∧
      (∀ s, ("title", Val.str s) ∈ [("status", Val.str "updated"),
        ("rate", Val.int 150)] → nr.title = s) ∧
      ("company_id" ∉ keysOf [("status", Val.str "updated"),
        ("rate", Val.int 150)] → nr.company_id = "comp1") ∧
      (∀ s, ("company_id", Val.str s) ∈ [("status", Val.str "updated"),
        ("rate", Val.int 150)] → nr.company_id = s) ∧
      ("contractor_id" ∉ keysOf [("status", Val.str "updated"),
        ("rate", Val.int 150)] → nr.contractor_id = "cont1") ∧
      (∀ s, ("contractor_id", Val.str s) ∈ [("status", Val.str "updated"),
        ("rate", Val.int 150)] → nr.contractor_id = s) ∧
      create_new_scd_version
        [⟨"job1", 1, some "u1", "active", 100, "Engineer", "comp1", "cont1"⟩]
        "job1"
        (fun r => { applyUpdates r [("status", Val.str "updated"),
          ("rate", Val.int 150)] with uid := some "u2" }) =
        .ok ([⟨"job1", 1, some "u1", "active", 100, "Engineer", "comp1",
          "cont1"⟩] ++ [nr], nr) :=
  claim_C1
    [⟨"job1", 1, some "u1", "active", 100, "Engineer", "comp1", "cont1"⟩]
    "job1" [("status", Val.str "updated"), ("rate", Val.int 150)] "u2"
    ⟨"job1", 1, some "u1", "active", 100, "Engineer", "comp1", "cont1"⟩
    rfl
    (by
      intro kv hkv
      rcases List.mem_cons.mp hkv with rfl | hkv
      · exact Or.inl ⟨rfl, "updated", rfl⟩
      rcases List.mem_cons.mp hkv with rfl | hkv
      · exact Or.inr (Or.inl ⟨rfl, 150, rfl⟩)
      · cases hkv)
    (by decide) (by decide)

/-- C4 counterexample: on a table with no row for the requested id, both
create helpers raise the generic builtin `Exception` class (distinguished
only by its message), i.e. a generic failure, not a typed NotFound error
kind. -/
theorem claim_C4_counterexample :
    SCDHelper.create_new_version [] "job1" [] "u1" =
      .error (.Exception "No record found with id job1") ∧
    create_new_scd_version [] "job1" (fun r => r) =
      .error (.Exception "Not found") ∧
    PyExc.isGeneric (.Exception "No record found with id job1") = true ∧
    PyExc.isGeneric (.Exception "Not found") = true :=
  ⟨rfl, rfl, rfl, rfl⟩

/-- C4 (amended): `create_version` called for an id with no existing
version row does fail, but the failure is python's generic builtin
`Exception` carrying a not-found message ("No record found with id ..."
in the benchmark helper, "Not found" in the Django helper), not a typed
NotFound error kind. -/
theorem claim_C4 (db : List Row) (idv : String) (upd : List (String × Val))
    (fresh : String) (f : Row → Row) (h : ∀ r ∈ db, r.id ≠ idv) :
    SCDHelper.create_new_version db idv upd fresh =
      .error (.Exception ("No record found with id " ++ idv)) ∧
    create_new_scd_version db idv f = .error (.Exception "Not found") ∧
    PyExc.isGeneric (.Exception ("No record found with id " ++ idv)) = true ∧
    PyExc.isGeneric (.Exception "Not found") = true :=
  ⟨create_new_version_notfound upd fresh h, django_create_notfound f h,
    rfl, rfl⟩

/-- Witness for the amended C4 on a non-empty table lacking the id. -/
theorem claim_C4_witness :
    SCDHelper.create_new_version
      [⟨"job2", 1, some "u1", "active", 100, "Engineer", "comp1", "cont1"⟩]
      "job1" [] "u9" =
      .error (.Exception ("No record found with id " ++ "job1")) ∧
    create_new_scd_version
      [⟨"job2", 1, some "u1", "active", 100, "Engineer", "comp1", "cont1"⟩]
      "job1" (fun r => r) = .error (.Exception "Not found") ∧
    PyExc.isGeneric (.Exception ("No record found with id " ++ "job1")) =
      true ∧
    PyExc.isGeneric (.Exception "Not found") = true :=
  claim_C4
    [⟨"job2", 1, some "u1", "active", 100, "Engineer", "comp1", "cont1"⟩]
    "job1" [] "u9" (fun r => r) (by decide)

theorem setCol_unknown (r : Row) (k : String) (v : Val)
    (h : k ∉ jobsColumns) : setCol r k v = r := by
  unfold setCol
  split_ifs with h1 h2 h3 h4 h5 h6 h7 h8
  · exact absurd (by rw [h1]; decide) h
  · exact absurd (by rw [h2]; decide) h
  · exact absurd (by rw [h3]; decide) h
  · exact absurd (by rw [h4]; decide) h
  · exact absurd (by rw [h5]; decide) h
  · exact absurd (by rw [h6]; decide) h
  · exact absurd (by rw [h7]; decide) h
  · exact absurd (by rw [h8]; decide) h
  · rfl

theorem applyUpdates_unknown (r : Row) (upd : List (String × Val))
    (h : ∀ kv ∈ upd, kv.1 ∉ jobsColumns) : applyUpdates r upd = r := by
  induction upd generalizing r with
  | nil => rfl
  | cons kv rest ih =>
    rw [applyUpdates,
      setCol_unknown r kv.1 kv.2 (h kv (List.mem_cons_self kv rest))]
    exact ih r (fun x hx => h x (List.mem_cons_of_mem kv hx))

/-- C9: in `SCDHelper.create_new_version`, update keys that are not column
names of the jobs table are silently ignored: with such an updates
mapping the new row is still inserted, every field except version and uid
is copied unchanged from the latest row, and the call is equal to the same
call with the empty updates mapping. -/
theorem claim_C9 (db : List Row) (idv : String) (upd : List (String × Val))
    (fresh : String) (latest : Row)
    (hl : latestRow db idv = some latest)
    (hunk : ∀ kv ∈ upd, kv.1 ∉ jobsColumns)
    (hfresh : ∀ x ∈ db, x.uid ≠ some fresh) :
    SCDHelper.create_new_version db idv upd fresh =
      .ok (db ++
        [{ latest with version := latest.version + 1, uid := some fresh }]) ∧
    SCDHelper.create_new_version db idv upd fresh =
      SCDHelper.create_new_version db idv [] fresh := by
  have hid : "id" ∉ keysOf upd := by
    intro hmem
    rcases List.mem_map.mp hmem with ⟨kv, hkv, hfst⟩
    exact hunk kv hkv (by rw [hfst]; decide)
  have hver : "version" ∉ keysOf upd := by
    intro hmem
    rcases List.mem_map.mp hmem with ⟨kv, hkv, hfst⟩
    exact hunk kv hkv (by rw [hfst]; decide)
  have hau : applyUpdates { latest with version := latest.version + 1 } upd =
      { latest with version := latest.version + 1 } :=
    applyUpdates_unknown _ upd hunk
  have hd : derivedRow latest upd fresh =
      { latest with version := latest.version + 1, uid := some fresh } := by
    rw [derivedRow, hau]
  have h1 := create_new_version_ok hl hid hver hfresh
  refine ⟨by rw [h1, hd], ?_⟩
  rw [h1, create_new_version_ok hl (by decide) (by decide) hfresh, hd]
  rw [show derivedRow latest [] fresh =
    { latest with version := latest.version + 1, uid := some fresh } from
    rfl]

/-- Witness for C9: an update whose keys name no column of jobs. -/
theorem claim_C9_witness :
    SCDHelper.create_new_version
      [⟨"job1", 1, some "u1", "active", 100, "Engineer", "comp1", "cont1"⟩]
      "job1" [("bogus", Val.str "x"), ("Status", Val.int 7)] "u2" =
      .ok ([⟨"job1", 1, some "u1", "active", 100, "Engineer", "comp1",
        "cont1"⟩] ++
        [⟨"job1", (1 : Int) + 1, some "u2", "active", 100, "Engineer",
          "comp1", "cont1"⟩]) ∧
    SCDHelper.create_new_version
      [⟨"job1", 1, some "u1", "active", 100, "Engineer", "comp1", "cont1"⟩]
      "job1" [("bogus", Val.str "x"), ("Status", Val.int 7)] "u2" =
      SCDHelper.create_new_version
        [⟨"job1", 1, some "u1", "active", 100, "Engineer", "comp1",
          "cont1"⟩] "job1" [] "u2" :=
  claim_C9
    [⟨"job1", 1, some "u1", "active", 100, "Engineer", "comp1", "cont1"⟩]
    "job1" [("bogus", Val.str "x"), ("Status", Val.int 7)] "u2"
    ⟨"job1", 1, some "u1", "active", 100, "Engineer", "comp1", "cont1"⟩
    rfl (by decide) (by decide)

/-- C10: `FlagVersioningHelper.create_new_version` called for an id with
no existing row does not raise a NotFound-style `Exception`: the
flag-clearing UPDATE has already been issued inside the still-open
transaction (matching no rows), the SELECT at the COALESCEd version 0
fetches `None`, and the `original[4]` subscript fails with python's
`TypeError`; the error is never the generic not-found `Exception`. -/
theorem claim_C10 (db : List RowFlag) (idv : String)
    (upd : List (String × Val)) (fresh : String)
    (h : ∀ r ∈ db, r.id ≠ idv) :
    FlagVersioningHelper.create_new_version db idv upd fresh =
      .error (.TypeError "NoneType object is not subscriptable",
        db.map (clearIf idv)) ∧
    db.map (clearIf idv) = db ∧
    (∀ m st, FlagVersioningHelper.create_new_version db idv upd fresh ≠
      .error (.Exception m, st)) := by
  obtain ⟨h1, h2⟩ := flag_create_notfound upd fresh h
  refine ⟨h1, h2, ?_⟩
  intro m st heq
  rw [h1] at heq
  simp at heq

/-- Witness for C10 on a table holding a different entity. -/
theorem claim_C10_witness :
    FlagVersioningHelper.create_new_version
      [⟨"job1", 1, "f1", true, "active", 100, "Engineer", "comp1", "cont1"⟩]
      "job9" [] "f2" =
      .error (.TypeError "NoneType object is not subscriptable",
        [⟨"job1", 1, "f1", true, "active", 100, "Engineer", "comp1",
          "cont1"⟩].map (clearIf "job9")) ∧
    [(⟨"job1", 1, "f1", true, "active", 100, "Engineer", "comp1",
      "cont1"⟩ : RowFlag)].map (clearIf "job9") =
      [⟨"job1", 1, "f1", true, "active", 100, "Engineer", "comp1",
        "cont1"⟩] ∧
    (∀ m st, FlagVersioningHelper.create_new_version
      [⟨"job1", 1, "f1", true, "active", 100, "Engineer", "comp1", "cont1"⟩]
      "job9" [] "f2" ≠ .error (.Exception m, st)) :=
  claim_C10
    [⟨"job1", 1, "f1", true, "active", 100, "Engineer", "comp1", "cont1"⟩]
    "job9" [] "f2" (by decide)

theorem maxVer_eq_iff {db : List Row} {r : Row} (hr : r ∈ db) :
    maxVer db r.id = some r.version ↔
      ∀ x ∈ db, x.id = r.id → x.version ≤ r.version := by
  constructor
  · intro h x hx hxid
    cases hl : latestRow db r.id with
    | none =>
      rw [maxVer, hl] at h
      cases h
    | some l =>
      rw [maxVer, hl, Option.map_some', Option.some.injEq] at h
      rw [← h]
      exact pickMax_le hl x hx hxid
  · intro h
    rcases @pickMax_isSome Row Int _ (·.id) (·.version) db r.id r hr rfl
      with ⟨l, hl⟩
    have h1 : l.version ≤ r.version :=
      h l (pickMax_mem hl).1 (pickMax_mem hl).2
    have h2 : r.version ≤ l.version := pickMax_le hl r hr rfl
    rw [maxVer, show latestRow db r.id = some l from hl, Option.map_some',
      Option.some.injEq]
    omega

/-- No two distinct rows of the jobs table share `(id, version)` — the
composite primary key `setup_database` declares on jobs. -/
def KeyUnique (db : List Row) : Prop :=
  ∀ r ∈ db, ∀ r' ∈ db, r.id = r'.id → r.version = r'.version → r = r'

instance : DecidablePred KeyUnique := by
  intro db
  unfold KeyUnique
  infer_instance

/-- C2: for every jobs table and row predicate, the bulk resolver
(`latest_scd_queryset` filtered by the predicate) returns exactly the rows
that are the current (per-id maximal-version) row of their id and satisfy
the predicate; an id whose current row fails the predicate contributes no
row at all, even when an older version of that id would have matched; and
the benchmark `SCDHelper.get_latest_versions` likewise returns exactly the
per-id current rows.  `find_active_jobs_by_company` is the instance at the
active-status / company predicate. -/
theorem claim_C2 (db : List Row) (p : Row → Bool) (hkey : KeyUnique db) :
    (∀ r, r ∈ (latest_scd_queryset db (fun _ => true)).filter p ↔
      (r ∈ db ∧ (∀ x ∈ db, x.id = r.id → x.version ≤ r.version) ∧
        p r = true)) ∧
    (∀ idv cur, cur ∈ db → cur.id = idv →
      (∀ x ∈ db, x.id = idv → x.version ≤ cur.version) → p cur = false →
      ∀ r ∈ (latest_scd_queryset db (fun _ => true)).filter p,
        r.id ≠ idv) ∧
    (∀ r, r ∈ SCDHelper.get_latest_versions db ↔
      (r ∈ db ∧ ∀ x ∈ db, x.id = r.id → x.version ≤ r.version)) ∧
    (∀ cid r, r ∈ find_active_jobs_by_company db cid ↔
      (r ∈ db ∧ (∀ x ∈ db, x.id = r.id → x.version ≤ r.version) ∧
        r.status = "active" ∧ r.company_id = cid)) := by
  have hA : ∀ (q : Row → Bool) r,
      r ∈ (latest_scd_queryset db (fun _ => true)).filter q ↔
      (r ∈ db ∧ (∀ x ∈ db, x.id = r.id → x.version ≤ r.version) ∧
        q r = true) := by
    intro q r
    rw [List.mem_filter]
    unfold latest_scd_queryset
    rw [List.mem_filter, List.mem_filter]
    constructor
    · rintro ⟨⟨⟨hdb, -⟩, hmax⟩, hq⟩
      rw [decide_eq_true_eq] at hmax
      exact ⟨hdb, (maxVer_eq_iff hdb).mp hmax, hq⟩
    · rintro ⟨hdb, hmax, hq⟩
      exact ⟨⟨⟨hdb, rfl⟩, by
        rw [decide_eq_true_eq]
        exact (maxVer_eq_iff hdb).mpr hmax⟩, hq⟩
  refine ⟨hA p, ?_, ?_, ?_⟩
  · intro idv cur hcur hcid hmax hfp r hr hrid
    rcases (hA p r).mp hr with ⟨hdb, hmaxr, hp⟩
    have h1 : cur.version ≤ r.version := by
      refine hmaxr cur hcur ?_
      rw [hcid, hrid]
    have h2 : r.version ≤ cur.version := hmax r hdb hrid
    have : r = cur := by
      refine hkey r hdb cur hcur ?_ ?_
      · rw [hrid, hcid]
      · omega
    rw [this] at hp
    rw [hp] at hfp
    cases hfp
  · intro r
    unfold SCDHelper.get_latest_versions
    rw [List.mem_filter]
    constructor
    · rintro ⟨hdb, hmax⟩
      rw [decide_eq_true_eq] at hmax
      exact ⟨hdb, (maxVer_eq_iff hdb).mp hmax⟩
    · rintro ⟨hdb, hmax⟩
      exact ⟨hdb, by
        rw [decide_eq_true_eq]
        exact (maxVer_eq_iff hdb).mpr hmax⟩
  · intro cid r
    rw [show find_active_jobs_by_company db cid =
      (latest_scd_queryset db (fun _ => true)).filter
        (fun r => r.status == "active" && r.company_id == cid) from rfl]
    rw [hA (fun r => r.status == "active" && r.company_id == cid) r]
    simp [Bool.and_eq_true, beq_iff_eq, and_assoc]

/-- A concrete three-row jobs table: job1 at versions 1 (extended) and 2
(active), job2 at version 1 (inactive). -/
def dbw2 : List Row :=
  [⟨"job1", 1, some "a1", "extended", 100, "Engineer", "comp1", "cont1"⟩,
   ⟨"job1", 2, some "a2", "active", 100, "Engineer", "comp1", "cont1"⟩,
   ⟨"job2", 1, some "a3", "inactive", 100, "Engineer", "comp1", "cont2"⟩]

/-- Witness for C2 on `dbw2` with the status-active predicate. -/
theorem claim_C2_witness :
    (∀ r, r ∈ (latest_scd_queryset dbw2 (fun _ => true)).filter
        (fun r => r.status == "active") ↔
      (r ∈ dbw2 ∧ (∀ x ∈ dbw2, x.id = r.id → x.version ≤ r.version) ∧
        (r.status == "active") = true)) ∧
    (∀ idv cur, cur ∈ dbw2 → cur.id = idv →
      (∀ x ∈ dbw2, x.id = idv → x.version ≤ cur.version) →
      (fun r => r.status == "active") cur = false →
      ∀ r ∈ (latest_scd_queryset dbw2 (fun _ => true)).filter
        (fun r => r.status == "active"), r.id ≠ idv) ∧
    (∀ r, r ∈ SCDHelper.get_latest_versions dbw2 ↔
      (r ∈ dbw2 ∧ ∀ x ∈ dbw2, x.id = r.id → x.version ≤ r.version)) ∧
    (∀ cid r, r ∈ find_active_jobs_by_company dbw2 cid ↔
      (r ∈ dbw2 ∧ (∀ x ∈ dbw2, x.id = r.id → x.version ≤ r.version) ∧
        r.status = "active" ∧ r.company_id = cid)) :=
  claim_C2 dbw2 (fun r => r.status == "active") (by decide)

/-- The version discriminators of one entity's rows in insertion order
(jobs table). -/
def verListC (db : List Row) (idv : String) : List Int :=
  (db.filter (fun r => r.id == idv)).map (·.version)

/-- The created_at discriminators of one entity's rows in insertion order
(jobs_ts table). -/
def tsListT (db : List RowTS) (idv : String) : List Nat :=
  (db.filter (fun r => r.id == idv)).map (·.created_at)

/-- The version discriminators of one entity's rows in insertion order
(jobs_flag table). -/
def verListF (db : List RowFlag) (idv : String) : List Int :=
  (db.filter (fun r => r.id == idv)).map (·.version)

theorem verListC_append (db : List Row) (r : Row) (idv : String)
    (h : r.id = idv) :
    verListC (db ++ [r]) idv = verListC db idv ++ [r.version] := by
  simp [verListC, List.filter_append, h]

theorem tsListT_append (db : List RowTS) (r : RowTS) (idv : String)
    (h : r.id = idv) :
    tsListT (db ++ [r]) idv = tsListT db idv ++ [r.created_at] := by
  simp [tsListT, List.filter_append, h]

theorem verListF_append (db : List RowFlag) (r : RowFlag) (idv : String)
    (h : r.id = idv) :
    verListF (db ++ [r]) idv = verListF db idv ++ [r.version] := by
  simp [verListF, List.filter_append, h]

theorem verListC_mem {db : List Row} {idv : String} {a : Int}
    (h : a ∈ verListC db idv) : ∃ x ∈ db, x.id = idv ∧ x.version = a := by
  rcases List.mem_map.mp h with ⟨x, hx, rfl⟩
  rcases List.mem_filter.mp hx with ⟨hxdb, hxid⟩
  rw [beq_iff_eq] at hxid
  exact ⟨x, hxdb, hxid, rfl⟩

theorem tsListT_mem {db : List RowTS} {idv : String} {a : Nat}
    (h : a ∈ tsListT db idv) : ∃ x ∈ db, x.id = idv ∧ x.created_at = a := by
  rcases List.mem_map.mp h with ⟨x, hx, rfl⟩
  rcases List.mem_filter.mp hx with ⟨hxdb, hxid⟩
  rw [beq_iff_eq] at hxid
  exact ⟨x, hxdb, hxid, rfl⟩

theorem verListF_mem {db : List RowFlag} {idv : String} {a : Int}
    (h : a ∈ verListF db idv) : ∃ x ∈ db, x.id = idv ∧ x.version = a := by
  rcases List.mem_map.mp h with ⟨x, hx, rfl⟩
  rcases List.mem_filter.mp hx with ⟨hxdb, hxid⟩
  rw [beq_iff_eq] at hxid
  exact ⟨x, hxdb, hxid, rfl⟩

theorem verListF_map_clearIf (idv jdv : String) (db : List RowFlag) :
    verListF (db.map (clearIf idv)) jdv = verListF db jdv := by
  induction db with
  | nil => rfl
  | cons r rest ih =>
    by_cases h : (r.id == jdv) = true
    · simpa [verListF, List.filter_cons, clearIf_id, clearIf_version, h]
        using ih
    · simpa [verListF, List.filter_cons, clearIf_id, clearIf_version, h]
        using ih

theorem pairwise_lt_append {κ : Type} [LinearOrder κ] {l : List κ} {b : κ}
    (h : l.Pairwise (· < ·)) (hb : ∀ a ∈ l, a < b) :
    (l ++ [b]).Pairwise (· < ·) := by
  rw [List.pairwise_append]
  refine ⟨h, List.pairwise_singleton _ _, ?_⟩
  intro a ha c hc
  rw [List.mem_singleton] at hc
  rw [hc]
  exact hb a ha

/-- C5: one successful `create_version` call appends, for its entity, a
discriminator strictly greater than every discriminator the entity already
has, under each of the three strategies — the counter and flag strategies
by construction (`MAX + 1`), the timestamp strategy provided the observed
`datetime.now()` lies strictly after the entity's existing timestamps, as
a monotone wall clock does; consequently, a strictly increasing
insertion-order discriminator sequence (hence duplicate-free) stays
strictly increasing after the call, so after N successful calls from a
seeded single-version state the sequence is strictly increasing. -/
theorem claim_C5
    (dbC : List Row) (dbT : List RowTS) (dbF : List RowFlag)
    (idv : String) (upd : List (String × Val)) (uC uT uF : String)
    (now : Nat) (dbC' : List Row) (dbT' : List RowTS) (dbF' : List RowFlag)
    (hkeys : ∀ kv ∈ upd, kv.1 ≠ "id" ∧ kv.1 ≠ "version")
    (hC : SCDHelper.create_new_version dbC idv upd uC = .ok dbC')
    (hT : TimestampVersioningHelper.create_new_version dbT idv upd now uT =
      .ok dbT')
    (hF : FlagVersioningHelper.create_new_version dbF idv upd uF = .ok dbF')
    (hnow : ∀ x ∈ dbT, x.id = idv → x.created_at < now) :
    (∃ r, dbC' = dbC ++ [r] ∧ r.id = idv ∧
      (∀ x ∈ dbC, x.id = idv → x.version < r.version) ∧
      (List.Pairwise (· < ·) (verListC dbC idv) →
        List.Pairwise (· < ·) (verListC dbC' idv))) ∧
    (∃ r, dbT' = dbT ++ [r] ∧ r.id = idv ∧
      (∀ x ∈ dbT, x.id = idv → x.created_at < r.created_at) ∧
      (List.Pairwise (· < ·) (tsListT dbT idv) →
        List.Pairwise (· < ·) (tsListT dbT' idv))) ∧
    (∃ r, dbF' = dbF.map (clearIf idv) ++ [r] ∧ r.id = idv ∧
      (∀ x ∈ dbF, x.id = idv → x.version < r.version) ∧
      (List.Pairwise (· < ·) (verListF dbF idv) →
        List.Pairwise (· < ·) (verListF dbF' idv))) := by
  have hid : "id" ∉ keysOf upd := by
    intro hmem
    rcases List.mem_map.mp hmem with ⟨kv, hkv, hfst⟩
    exact (hkeys kv hkv).1 hfst
  have hver : "version" ∉ keysOf upd := by
    intro hmem
    rcases List.mem_map.mp hmem with ⟨kv, hkv, hfst⟩
    exact (hkeys kv hkv).2 hfst
  refine ⟨?_, ?_, ?_⟩
  · cases hlat : latestRow dbC idv with
    | none =>
      simp only [SCDHelper.create_new_version, SCDHelper.create_split,
        hlat] at hC
      exact Except.noConfusion hC
    | some latest =>
      rw [SCDHelper.create_new_version, create_split_eq dbC upd uC hlat]
        at hC
      obtain ⟨-, -, -, rfl⟩ := insertJobs_ok.mp hC
      have hrid : (derivedRow latest upd uC).id = idv := by
        rw [derivedRow_id hid]
        exact (pickMax_mem hlat).2
      refine ⟨derivedRow latest upd uC, rfl, hrid, ?_, ?_⟩
      · intro x hx hxid
        have h1 : x.version ≤ latest.version := pickMax_le hlat x hx hxid
        rw [derivedRow_version hver]
        omega
      · intro hpw
        rw [verListC_append dbC _ idv hrid]
        refine pairwise_lt_append hpw ?_
        intro a ha
        rcases verListC_mem ha with ⟨x, hx, hxid, rfl⟩
        have h1 : x.version ≤ latest.version := pickMax_le hlat x hx hxid
        rw [derivedRow_version hver]
        omega
  · cases hlat : latestRowTS dbT idv with
    | none =>
      simp only [TimestampVersioningHelper.create_new_version, hlat] at hT
      exact Except.noConfusion hT
    | some latest =>
      rw [TimestampVersioningHelper.create_new_version, hlat] at hT
      obtain ⟨-, -, rfl⟩ := insertTS_ok.mp hT
      refine ⟨_, rfl, rfl, hnow, ?_⟩
      intro hpw
      rw [tsListT_append dbT _ idv rfl]
      refine pairwise_lt_append hpw ?_
      intro a ha
      rcases tsListT_mem ha with ⟨x, hx, hxid, rfl⟩
      exact hnow x hx hxid
  · simp only [FlagVersioningHelper.create_new_version] at hF
    rcases hfind : (dbF.map (clearIf idv)).find?
        (fun r => r.id == idv &&
          r.version == maxVerF (dbF.map (clearIf idv)) idv) with _ | o
    · simp only [hfind] at hF
      exact Except.noConfusion hF
    · simp only [hfind] at hF
      rcases hins : insertFlag (dbF.map (clearIf idv))
          ⟨idv, maxVerF (dbF.map (clearIf idv)) idv + 1, uF, true,
           getStr (updGet upd "status") o.status,
           getInt (updGet upd "rate") o.rate, o.title, o.company_id,
           o.contractor_id⟩ with e | db2
      · simp only [hins] at hF
        exact Except.noConfusion hF
      · simp only [hins, Except.ok.injEq] at hF
        subst hF
        have homem := List.mem_of_find?_eq_some hfind
        have hop := List.find?_some hfind
        rw [Bool.and_eq_true, beq_iff_eq, beq_iff_eq] at hop
        obtain ⟨-, -, h2⟩ := insertFlag_ok.mp hins
        rcases @pickMax_isSome RowFlag Int _ (·.id) (·.version)
            (dbF.map (clearIf idv)) idv o homem hop.1 with ⟨l, hl⟩
        have hmaxv : maxVerF (dbF.map (clearIf idv)) idv = l.version := by
          rw [maxVerF,
            show latestRowF (dbF.map (clearIf idv)) idv = some l from hl]
          rfl
        have hbound : ∀ x ∈ dbF, x.id = idv →
            x.version < maxVerF (dbF.map (clearIf idv)) idv + 1 := by
          intro x hx hxid
          have hx1 : clearIf idv x ∈ dbF.map (clearIf idv) :=
            List.mem_map_of_mem _ hx
          have h3 : (clearIf idv x).version ≤ l.version :=
            pickMax_le hl _ hx1 (by rw [clearIf_id]; exact hxid)
          rw [clearIf_version] at h3
          omega
        refine ⟨_, h2, rfl, hbound, ?_⟩
        intro hpw
        rw [h2, verListF_append _ _ idv rfl, verListF_map_clearIf]
        refine pairwise_lt_append ?_ ?_
        · exact hpw
        · intro a ha
          rcases verListF_mem ha with ⟨x, hx, hxid, rfl⟩
          exact hbound x hx hxid

/-- A one-entity seeded jobs table for witnesses. -/
def c5C : List Row :=
  [⟨"job1", 1, some "u1", "active", 100, "Engineer", "comp1", "cont1"⟩]

/-- A one-entity seeded jobs_ts table for witnesses. -/
def c5T : List RowTS :=
  [⟨"job1", 0, "t1", "active", 100, "Engineer", "comp1", "cont1"⟩]

/-- A one-entity seeded jobs_flag table for witnesses. -/
def c5F : List RowFlag :=
  [⟨"job1", 1, "f1", true, "active", 100, "Engineer", "comp1", "cont1"⟩]

/-- Witness for C5: one concrete successful create per strategy. -/
theorem claim_C5_witness :
    (∃ r, (c5C ++
        [⟨"job1", 2, some "u2", "x", 100, "Engineer", "comp1", "cont1"⟩] :
        List Row) = c5C ++ [r] ∧ r.id = "job1" ∧
      (∀ x ∈ c5C, x.id = "job1" → x.version < r.version) ∧
      (List.Pairwise (· < ·) (verListC c5C "job1") →
        List.Pairwise (· < ·) (verListC (c5C ++
          [⟨"job1", 2, some "u2", "x", 100, "Engineer", "comp1",
            "cont1"⟩]) "job1"))) ∧
    (∃ r, (c5T ++
        [⟨"job1", 5, "t2", "x", 100, "Engineer", "comp1", "cont1"⟩] :
        List RowTS) = c5T ++ [r] ∧ r.id = "job1" ∧
      (∀ x ∈ c5T, x.id = "job1" → x.created_at < r.created_at) ∧
      (List.Pairwise (· < ·) (tsListT c5T "job1") →
        List.Pairwise (· < ·) (tsListT (c5T ++
          [⟨"job1", 5, "t2", "x", 100, "Engineer", "comp1", "cont1"⟩])
          "job1"))) ∧
    (∃ r, ([⟨"job1", 1, "f1", false, "active", 100, "Engineer", "comp1",
        "cont1"⟩,
        ⟨"job1", 2, "f2", true, "x", 100, "Engineer", "comp1", "cont1"⟩] :
        List RowFlag) = c5F.map (clearIf "job1") ++ [r] ∧ r.id = "job1" ∧
      (∀ x ∈ c5F, x.id = "job1" → x.version < r.version) ∧
      (List.Pairwise (· < ·) (verListF c5F "job1") →
        List.Pairwise (· < ·) (verListF
          [⟨"job1", 1, "f1", false, "active", 100, "Engineer", "comp1",
            "cont1"⟩,
           ⟨"job1", 2, "f2", true, "x", 100, "Engineer", "comp1",
            "cont1"⟩] "job1"))) :=
  claim_C5 c5C c5T c5F "job1" [("status", Val.str "x")] "u2" "t2" "f2" 5
    (c5C ++ [(⟨"job1", 2, some "u2", "x", 100, "Engineer", "comp1",
      "cont1"⟩ : Row)])
    (c5T ++ [(⟨"job1", 5, "t2", "x", 100, "Engineer", "comp1",
      "cont1"⟩ : RowTS)])
    ([⟨"job1", 1, "f1", false, "active", 100, "Engineer", "comp1",
      "cont1"⟩,
      ⟨"job1", 2, "f2", true, "x", 100, "Engineer", "comp1", "cont1"⟩] :
      List RowFlag)
    (by decide) (by rfl) (by rfl) (by rfl) (by decide)

theorem clearIf_cases (idv : String) (x : RowFlag) :
    clearIf idv x = x ∨ clearIf idv x = { x with is_current := false } := by
  unfold clearIf
  split_ifs
  · exact Or.inr rfl
  · exact Or.inl rfl

theorem create_ok_shape {db : List Row} {idv : String}
    {upd : List (String × Val)} {fresh : String} {db' : List Row}
    (h : SCDHelper.create_new_version db idv upd fresh = .ok db') :
    ∃ r, db' = db ++ [r] := by
  cases hlat : latestRow db idv with
  | none =>
    simp only [SCDHelper.create_new_version, SCDHelper.create_split,
      hlat] at h
    exact Except.noConfusion h
  | some latest =>
    rw [SCDHelper.create_new_version, create_split_eq db upd fresh hlat] at h
    obtain ⟨-, -, -, rfl⟩ := insertJobs_ok.mp h
    exact ⟨_, rfl⟩

theorem ts_create_ok_shape {db : List RowTS} {idv : String}
    {upd : List (String × Val)} {now : Nat} {fresh : String}
    {db' : List RowTS}
    (h : TimestampVersioningHelper.create_new_version db idv upd now fresh =
      .ok db') : ∃ r, db' = db ++ [r] := by
  cases hlat : latestRowTS db idv with
  | none =>
    simp only [TimestampVersioningHelper.create_new_version, hlat] at h
    exact Except.noConfusion h
  | some latest =>
    rw [TimestampVersioningHelper.create_new_version, hlat] at h
    obtain ⟨-, -, rfl⟩ := insertTS_ok.mp h
    exact ⟨_, rfl⟩

theorem flag_create_ok_shape {db : List RowFlag} {idv : String}
    {upd : List (String × Val)} {fresh : String} {db' : List RowFlag}
    (h : FlagVersioningHelper.create_new_version db idv upd fresh =
      .ok db') : ∃ r, db' = db.map (clearIf idv) ++ [r] := by
  simp only [FlagVersioningHelper.create_new_version] at h
  rcases hfind : (db.map (clearIf idv)).find?
      (fun r => r.id == idv &&
        r.version == maxVerF (db.map (clearIf idv)) idv) with _ | o
  · simp only [hfind] at h
    exact Except.noConfusion h
  · simp only [hfind] at h
    rcases hins : insertFlag (db.map (clearIf idv))
        ⟨idv, maxVerF (db.map (clearIf idv)) idv + 1, fresh, true,
         getStr (updGet upd "status") o.status,
         getInt (updGet upd "rate") o.rate, o.title, o.company_id,
         o.contractor_id⟩ with e | db2
    · simp only [hins] at h
      exact Except.noConfusion h
    · simp only [hins, Except.ok.injEq] at h
      subst h
      obtain ⟨-, -, h2⟩ := insertFlag_ok.mp hins
      exact ⟨_, h2⟩

/-- C6: a successful `create_version` never updates or deletes an existing
row.  Counter and timestamp strategies append exactly one new row, leaving
every pre-existing row in place unchanged; the flag strategy commits the
image of the old table under the flag-clearing UPDATE plus one new row,
and that UPDATE leaves every column of every old row unchanged except
possibly `is_current` (the sole permitted write, cleared on the
previously-current rows of the written entity). -/
theorem claim_C6
    (dbC : List Row) (dbT : List RowTS) (dbF : List RowFlag)
    (idv : String) (upd : List (String × Val)) (uC uT uF : String)
    (now : Nat) (dbC' : List Row) (dbT' : List RowTS) (dbF' : List RowFlag)
    (hC : SCDHelper.create_new_version dbC idv upd uC = .ok dbC')
    (hT : TimestampVersioningHelper.create_new_version dbT idv upd now uT =
      .ok dbT')
    (hF : FlagVersioningHelper.create_new_version dbF idv upd uF =
      .ok dbF') :
    (∃ r, dbC' = dbC ++ [r]) ∧ (∀ x ∈ dbC, x ∈ dbC') ∧
    (∃ r, dbT' = dbT ++ [r]) ∧ (∀ x ∈ dbT, x ∈ dbT') ∧
    (∃ r, dbF' = dbF.map (clearIf idv) ++ [r]) ∧
    (∀ x ∈ dbF, clearIf idv x ∈ dbF' ∧
      (clearIf idv x).id = x.id ∧ (clearIf idv x).version = x.version ∧
      (clearIf idv x).uid = x.uid ∧ payF (clearIf idv x) = payF x ∧
      (clearIf idv x = x ∨
        clearIf idv x = { x with is_current := false })) := by
  obtain ⟨rc, hrc⟩ := create_ok_shape hC
  obtain ⟨rt, hrt⟩ := ts_create_ok_shape hT
  obtain ⟨rf, hrf⟩ := flag_create_ok_shape hF
  refine ⟨⟨rc, hrc⟩, ?_, ⟨rt, hrt⟩, ?_, ⟨rf, hrf⟩, ?_⟩
  · intro x hx
    rw [hrc]
    exact List.mem_append_left _ hx
  · intro x hx
    rw [hrt]
    exact List.mem_append_left _ hx
  · intro x hx
    refine ⟨?_, clearIf_id idv x, clearIf_version idv x, clearIf_uid idv x,
      clearIf_pay idv x, clearIf_cases idv x⟩
    rw [hrf]
    exact List.mem_append_left _ (List.mem_map_of_mem _ hx)

/-- Witness for C6 at the concrete one-entity tables. -/
theorem claim_C6_witness :
    (∃ r, (c5C ++ [(⟨"job1", 2, some "u2", "x", 100, "Engineer", "comp1",
      "cont1"⟩ : Row)]) = c5C ++ [r]) ∧
    (∀ x ∈ c5C, x ∈ c5C ++ [(⟨"job1", 2, some "u2", "x", 100, "Engineer",
      "comp1", "cont1"⟩ : Row)]) ∧
    (∃ r, (c5T ++ [(⟨"job1", 5, "t2", "x", 100, "Engineer", "comp1",
      "cont1"⟩ : RowTS)]) = c5T ++ [r]) ∧
    (∀ x ∈ c5T, x ∈ c5T ++ [(⟨"job1", 5, "t2", "x", 100, "Engineer",
      "comp1", "cont1"⟩ : RowTS)]) ∧
    (∃ r, ([⟨"job1", 1, "f1", false, "active", 100, "Engineer", "comp1",
      "cont1"⟩,
      ⟨"job1", 2, "f2", true, "x", 100, "Engineer", "comp1", "cont1"⟩] :
      List RowFlag) = c5F.map (clearIf "job1") ++ [r]) ∧
    (∀ x ∈ c5F, clearIf "job1" x ∈
      ([⟨"job1", 1, "f1", false, "active", 100, "Engineer", "comp1",
        "cont1"⟩,
        ⟨"job1", 2, "f2", true, "x", 100, "Engineer", "comp1", "cont1"⟩] :
        List RowFlag) ∧
      (clearIf "job1" x).id = x.id ∧
      (clearIf "job1" x).version = x.version ∧
      (clearIf "job1" x).uid = x.uid ∧ payF (clearIf "job1" x) = payF x ∧
      (clearIf "job1" x = x ∨
        clearIf "job1" x = { x with is_current := false })) :=
  claim_C6 c5C c5T c5F "job1" [("status", Val.str "x")] "u2" "t2" "f2" 5
    (c5C ++ [(⟨"job1", 2, some "u2", "x", 100, "Engineer", "comp1",
      "cont1"⟩ : Row)])
    (c5T ++ [(⟨"job1", 5, "t2", "x", 100, "Engineer", "comp1",
      "cont1"⟩ : RowTS)])
    ([⟨"job1", 1, "f1", false, "active", 100, "Engineer", "comp1",
      "cont1"⟩,
      ⟨"job1", 2, "f2", true, "x", 100, "Engineer", "comp1", "cont1"⟩] :
      List RowFlag)
    (by rfl) (by rfl) (by rfl)

/-- C7 counterexample: writer A advances job1 from version 1 to 2; writer
B, having read the version-1 state, then writes against the advanced
state.  B's single INSERT attempt surfaces the store's raw
unique-constraint IntegrityError directly — no retry is performed and no
Conflict error kind exists — although re-running the read-derive-write
sequence against the advanced state (the third conjunct) would have
succeeded. -/
theorem claim_C7_counterexample :
    SCDHelper.create_new_version c5C "job1" [("status", Val.str "x")]
      "u2" = .ok (c5C ++ [(⟨"job1", 2, some "u2", "x", 100, "Engineer",
        "comp1", "cont1"⟩ : Row)]) ∧
    SCDHelper.create_split c5C
      (c5C ++ [(⟨"job1", 2, some "u2", "x", 100, "Engineer", "comp1",
        "cont1"⟩ : Row)])
      "job1" [("status", Val.str "y")] "u3" =
      .error (.IntegrityError "duplicate key value: jobs (id, version)") ∧
    SCDHelper.create_split
      (c5C ++ [(⟨"job1", 2, some "u2", "x", 100, "Engineer", "comp1",
        "cont1"⟩ : Row)])
      (c5C ++ [(⟨"job1", 2, some "u2", "x", 100, "Engineer", "comp1",
        "cont1"⟩ : Row)])
      "job1" [("status", Val.str "y")] "u3" =
      .ok (c5C ++ [(⟨"job1", 2, some "u2", "x", 100, "Engineer", "comp1",
        "cont1"⟩ : Row)] ++ [(⟨"job1", 3, some "u3", "y", 100, "Engineer",
        "comp1", "cont1"⟩ : Row)]) :=
  ⟨rfl, rfl, rfl⟩

/-- C7 (amended): when a concurrent writer has advanced the entity between
this call's read and its write (the derived version already exists in the
write-time state), the counter-strategy create performs no retry and
raises no typed Conflict error: its single INSERT attempt fails with the
store's unique-constraint IntegrityError, surfaced directly to the
caller. -/
theorem claim_C7 (dbR dbW : List Row) (idv : String)
    (upd : List (String × Val)) (fresh : String) (latest : Row)
    (hl : latestRow dbR idv = some latest)
    (hkeys : ∀ kv ∈ upd, kv.1 ≠ "id" ∧ kv.1 ≠ "version")
    (hfresh : ∀ x ∈ dbW, x.uid ≠ some fresh)
    (hconf : ∃ x ∈ dbW, x.id = idv ∧ x.version = latest.version + 1) :
    SCDHelper.create_split dbR dbW idv upd fresh =
      .error (.IntegrityError "duplicate key value: jobs (id, version)") := by
  have hid : "id" ∉ keysOf upd := by
    intro hmem
    rcases List.mem_map.mp hmem with ⟨kv, hkv, hfst⟩
    exact (hkeys kv hkv).1 hfst
  have hver : "version" ∉ keysOf upd := by
    intro hmem
    rcases List.mem_map.mp hmem with ⟨kv, hkv, hfst⟩
    exact (hkeys kv hkv).2 hfst
  rw [create_split_eq dbW upd fresh hl]
  unfold insertJobs
  split_ifs with h1 h2 h3
  · exact absurd h1 (by rw [derivedRow_uid]; simp)
  · rcases h2 with ⟨x, hx, hux⟩
    rw [derivedRow_uid] at hux
    exact absurd hux (hfresh x hx)
  · rfl
  · rcases hconf with ⟨x, hx, hxid, hxver⟩
    refine absurd ⟨x, hx, ?_, ?_⟩ h3
    · rw [derivedRow_id hid, (pickMax_mem hl).2]
      exact hxid
    · rw [derivedRow_version hver]
      exact hxver

/-- Witness for the amended C7 at the concrete two-writer race. -/
theorem claim_C7_witness :
    SCDHelper.create_split c5C
      (c5C ++ [(⟨"job1", 2, some "u9", "x", 100, "Engineer", "comp1",
        "cont1"⟩ : Row)])
      "job1" [("status", Val.str "y")] "u3" =
      .error (.IntegrityError "duplicate key value: jobs (id, version)") :=
  claim_C7 c5C
    (c5C ++ [(⟨"job1", 2, some "u9", "x", 100, "Engineer", "comp1",
      "cont1"⟩ : Row)])
    "job1" [("status", Val.str "y")] "u3"
    ⟨"job1", 1, some "u1", "active", 100, "Engineer", "comp1", "cont1"⟩
    rfl (by decide) (by decide) (by decide)

theorem clearIf_eq_of_cur {idv : String} {r : RowFlag} (h1 : r.id = idv)
    (h2 : r.is_current = true) :
    clearIf idv r = { r with is_current := false } := by
  unfold clearIf
  rw [if_pos ⟨h1, h2⟩]

theorem length_filter_map {α : Type} (f : α → α) (p : α → Bool)
    (h : ∀ x, p (f x) = p x) (l : List α) :
    ((l.map f).filter p).length = (l.filter p).length := by
  induction l with
  | nil => rfl
  | cons r rest ih =>
    by_cases hr : p r = true
    · simp [List.filter_cons, h, hr, ih]
    · simp [List.filter_cons, h, hr, ih]

theorem countCur_map_clearIf_self (idv : String) (db : List RowFlag) :
    countCur (db.map (clearIf idv)) idv = 0 := by
  induction db with
  | nil => rfl
  | cons r rest ih =>
    by_cases h : r.id = idv
    · have h1 : (clearIf idv r).is_current = false := clearIf_not_cur idv r h
      simpa [countCur, List.filter_cons, h1] using ih
    · have h1 : clearIf idv r = r := clearIf_other idv r h
      simpa [countCur, List.filter_cons, h1, h] using ih

theorem countCur_map_clearIf_other (idv jdv : String) (h : jdv ≠ idv)
    (db : List RowFlag) :
    countCur (db.map (clearIf idv)) jdv = countCur db jdv := by
  refine length_filter_map (clearIf idv)
    (fun r => r.id == jdv && r.is_current) ?_ db
  intro x
  by_cases hx : x.id = idv
  · have h1 : (x.id == jdv) = false := by
      rw [hx]
      exact beq_false_of_ne (Ne.symm h)
    have h2 : ((clearIf idv x).id == jdv) = false := by
      rw [clearIf_id, hx]
      exact beq_false_of_ne (Ne.symm h)
    simp only [h1, h2, Bool.false_and]
  · rw [clearIf_other idv x hx]

theorem countCur_append (db : List RowFlag) (r : RowFlag) (idv : String) :
    countCur (db ++ [r]) idv =
      countCur db idv + (if r.id == idv && r.is_current then 1 else 0) := by
  by_cases h : (r.id == idv && r.is_current) = true
  · simp [countCur, List.filter_append, h]
  · simp [countCur, List.filter_append, h]

theorem map_uid_clearIf (idv : String) (db : List RowFlag) :
    (db.map (clearIf idv)).map (·.uid) = db.map (·.uid) := by
  rw [List.map_map]
  exact List.map_congr_left (fun x _ => clearIf_uid idv x)

/-- One successful flag create, with everything the sequence invariant
needs: shape, exactly one current row for the written entity, untouched
current-row counts for every other entity, preserved entity set, and the
new uid list. -/
theorem flag_step_inv {db : List RowFlag} {idv : String}
    (upd : List (String × Val)) {fresh : String}
    (hex : ∃ r ∈ db, r.id = idv)
    (hfresh : ∀ x ∈ db, x.uid ≠ fresh) :
    ∃ nr db',
      FlagVersioningHelper.create_new_version db idv upd fresh = .ok db' ∧
      db' = db.map (clearIf idv) ++ [nr] ∧ nr.id = idv ∧
      nr.is_current = true ∧
      countCur db' idv = 1 ∧
      (∀ jdv, jdv ≠ idv → countCur db' jdv = countCur db jdv) ∧
      (∀ jdv, (∃ r ∈ db', r.id = jdv) ↔ (∃ r ∈ db, r.id = jdv)) ∧
      db'.map (·.uid) = db.map (·.uid) ++ [fresh] ∧
      (∀ r ∈ db, r.id = idv → r.is_current = true →
        { r with is_current := false } ∈ db') := by
  obtain ⟨o, homem, hoid, hover, heq⟩ := flag_create_ok upd hex hfresh
  refine ⟨_, _, heq, rfl, rfl, rfl, ?_, ?_, ?_, ?_, ?_⟩
  · rw [countCur_append, countCur_map_clearIf_self]
    simp
  · intro jdv hj
    rw [countCur_append, countCur_map_clearIf_other idv jdv hj]
    have : (idv == jdv) = false := beq_false_of_ne (Ne.symm hj)
    simp [this]
  · intro jdv
    constructor
    · rintro ⟨r, hr, hrid⟩
      rcases List.mem_append.mp hr with hr1 | hr1
      · rcases List.mem_map.mp hr1 with ⟨y, hy, rfl⟩
        exact ⟨y, hy, by rw [← clearIf_id idv y]; exact hrid⟩
      · rw [List.mem_singleton] at hr1
        subst hr1
        rcases hex with ⟨y, hy, hyid⟩
        exact ⟨y, hy, by rw [hyid]; exact hrid⟩
    · rintro ⟨r, hr, hrid⟩
      exact ⟨clearIf idv r,
        List.mem_append_left _ (List.mem_map_of_mem _ hr),
        by rw [clearIf_id]; exact hrid⟩
  · rw [List.map_append, map_uid_clearIf]
    rfl
  · intro r hr hrid hrcur
    rw [← clearIf_eq_of_cur hrid hrcur]
    exact List.mem_append_left _ (List.mem_map_of_mem _ hr)

/-- The sequence invariant for `runFlag`: starting from a state where
every existing entity has exactly one current row, with all requested ids
existing and all supplied uids fresh and distinct, every call succeeds and
the one-current-row-per-entity invariant holds in the final state. -/
theorem runFlag_inv
    (ops : List (String × List (String × Val) × String)) :
    ∀ db : List RowFlag,
    (∀ op ∈ ops, ∃ r ∈ db, r.id = op.1) →
    (db.map (·.uid) ++ ops.map (fun op => op.2.2)).Nodup →
    (∀ idv, (∃ r ∈ db, r.id = idv) → countCur db idv = 1) →
    ∃ db', runFlag ops db = .ok db' ∧
      (∀ idv, (∃ r ∈ db', r.id = idv) ↔ (∃ r ∈ db, r.id = idv)) ∧
      (∀ idv, (∃ r ∈ db', r.id = idv) → countCur db' idv = 1) := by
  induction ops with
  | nil =>
    intro db _ _ h3
    exact ⟨db, rfl, fun idv => Iff.rfl, h3⟩
  | cons op rest ih =>
    intro db h1 h2 h3
    have hfresh : ∀ x ∈ db, x.uid ≠ op.2.2 := by
      intro x hx heq
      rcases List.nodup_append.mp h2 with ⟨-, -, hdis⟩
      exact hdis (List.mem_map_of_mem _ hx)
        (by
          rw [heq]
          exact List.mem_cons_self _ _)
    obtain ⟨nr, db1, hok, hshape, hnrid, hnrcur, hcnt1, hcntother, hids,
      huids, hprev⟩ :=
      flag_step_inv op.2.1 (h1 op (List.mem_cons_self op rest)) hfresh
    have h1' : ∀ op' ∈ rest, ∃ r ∈ db1, r.id = op'.1 := by
      intro op' hop'
      exact (hids op'.1).mpr (h1 op' (List.mem_cons_of_mem op hop'))
    have h2' : (db1.map (·.uid) ++
        rest.map (fun op => op.2.2)).Nodup := by
      rw [huids, List.append_assoc]
      exact h2
    have h3' : ∀ idv, (∃ r ∈ db1, r.id = idv) → countCur db1 idv = 1 := by
      intro idv hex1
      by_cases hco : idv = op.1
      · rw [hco]
        exact hcnt1
      · rw [hcntother idv hco]
        exact h3 idv ((hids idv).mp hex1)
    obtain ⟨db', hrun, hiff, hcnt⟩ := ih db1 h1' h2' h3'
    refine ⟨db', ?_, ?_, hcnt⟩
    · rw [runFlag, hok]
      exact hrun
    · intro idv
      exact (hiff idv).trans (hids idv)

/-- C3: under the Flag strategy, starting from any table in which every
existing entity has exactly one `is_current = true` row (as the seeded
tables do), any sequence of `create_new_version` calls for existing ids
with fresh distinct uids succeeds and leaves every existing entity with
exactly one current row — never zero, never more than one; moreover each
single call commits, in one transaction, the new row with
`is_current = true` together with the previously-current row's flag
cleared to false. -/
theorem claim_C3 (db : List RowFlag)
    (ops : List (String × List (String × Val) × String))
    (h1 : ∀ op ∈ ops, ∃ r ∈ db, r.id = op.1)
    (h2 : (db.map (·.uid) ++ ops.map (fun op => op.2.2)).Nodup)
    (h3 : ∀ idv, (∃ r ∈ db, r.id = idv) → countCur db idv = 1) :
    (∃ db', runFlag ops db = .ok db' ∧
      (∀ idv, (∃ r ∈ db', r.id = idv) ↔ (∃ r ∈ db, r.id = idv)) ∧
      (∀ idv, (∃ r ∈ db', r.id = idv) → countCur db' idv = 1)) ∧
    (∀ idv upd fresh, (∃ r ∈ db, r.id = idv) →
      (∀ x ∈ db, x.uid ≠ fresh) →
      ∃ nr db₂,
        FlagVersioningHelper.create_new_version db idv upd fresh =
          .ok db₂ ∧
        db₂ = db.map (clearIf idv) ++ [nr] ∧ nr.id = idv ∧
        nr.is_current = true ∧ countCur db₂ idv = 1 ∧
        (∀ r ∈ db, r.id = idv → r.is_current = true →
          { r with is_current := false } ∈ db₂)) := by
  refine ⟨runFlag_inv ops db h1 h2 h3, ?_⟩
  intro idv upd fresh hex hfresh
  obtain ⟨nr, db₂, hok, hshape, hnrid, hnrcur, hcnt1, -, -, -, hprev⟩ :=
    flag_step_inv upd hex hfresh
  exact ⟨nr, db₂, hok, hshape, hnrid, hnrcur, hcnt1, hprev⟩

/-- A seeded two-entity jobs_flag table for the C3 witness. -/
def c3F : List RowFlag :=
  [⟨"job1", 1, "f1", true, "active", 100, "Engineer", "comp1", "cont1"⟩,
   ⟨"job2", 1, "f2", true, "active", 100, "Engineer", "comp1", "cont2"⟩]

/-- Witness for C3: two sequential flag creates on job1 then job2. -/
theorem claim_C3_witness :
    (∃ db', runFlag
      [("job1", [("status", Val.str "x")], "f3"),
       ("job2", [], "f4")] c3F = .ok db' ∧
      (∀ idv, (∃ r ∈ db', r.id = idv) ↔ (∃ r ∈ c3F, r.id = idv)) ∧
      (∀ idv, (∃ r ∈ db', r.id = idv) → countCur db' idv = 1)) ∧
    (∀ idv upd fresh, (∃ r ∈ c3F, r.id = idv) →
      (∀ x ∈ c3F, x.uid ≠ fresh) →
      ∃ nr db₂,
        FlagVersioningHelper.create_new_version c3F idv upd fresh =
          .ok db₂ ∧
        db₂ = c3F.map (clearIf idv) ++ [nr] ∧ nr.id = idv ∧
        nr.is_current = true ∧ countCur db₂ idv = 1 ∧
        (∀ r ∈ c3F, r.id = idv → r.is_current = true →
          { r with is_current := false } ∈ db₂)) :=
  claim_C3 c3F
    [("job1", [("status", Val.str "x")], "f3"), ("job2", [], "f4")]
    (by decide) (by decide)
    (by
      rintro idv ⟨r, hr, rfl⟩
      rcases List.mem_cons.mp hr with rfl | hr
      · decide
      rcases List.mem_cons.mp hr with rfl | hr
      · decide
      · cases hr)

theorem updGet_updOf_status (op : Op8) :
    updGet (updOf op) "status" = op.st.map Val.str := by
  rcases op with ⟨oid, st, rt, uC, uT, uF, tnow⟩
  cases st <;> cases rt <;> rfl

theorem updGet_updOf_rate (op : Op8) :
    updGet (updOf op) "rate" = op.rt.map Val.int := by
  rcases op with ⟨oid, st, rt, uC, uT, uF, tnow⟩
  cases st <;> cases rt <;> rfl

theorem updOf_keys (op : Op8) :
    ∀ kv ∈ updOf op, kv.1 = "status" ∨ kv.1 = "rate" := by
  rcases op with ⟨oid, st, rt, uC, uT, uF, tnow⟩
  cases st <;> cases rt <;> simp [updOf]

theorem updOf_id_not_mem (op : Op8) : "id" ∉ keysOf (updOf op) := by
  intro hmem
  rcases List.mem_map.mp hmem with ⟨kv, hkv, hfst⟩
  rcases updOf_keys op kv hkv with h | h <;> rw [h] at hfst <;>
    exact absurd hfst (by decide)

theorem updOf_version_not_mem (op : Op8) :
    "version" ∉ keysOf (updOf op) := by
  intro hmem
  rcases List.mem_map.mp hmem with ⟨kv, hkv, hfst⟩
  rcases updOf_keys op kv hkv with h | h <;> rw [h] at hfst <;>
    exact absurd hfst (by decide)

theorem applyUpdates_updOf_status (r : Row) (op : Op8) :
    (applyUpdates r (updOf op)).status =
      getStr (op.st.map Val.str) r.status := by
  rcases op with ⟨oid, st, rt, uC, uT, uF, tnow⟩
  cases st <;> cases rt <;> rfl

theorem applyUpdates_updOf_rate (r : Row) (op : Op8) :
    (applyUpdates r (updOf op)).rate = getInt (op.rt.map Val.int) r.rate := by
  rcases op with ⟨oid, st, rt, uC, uT, uF, tnow⟩
  cases st <;> cases rt <;> rfl

theorem applyUpdates_updOf_title (r : Row) (op : Op8) :
    (applyUpdates r (updOf op)).title = r.title := by
  rcases op with ⟨oid, st, rt, uC, uT, uF, tnow⟩
  cases st <;> cases rt <;> rfl

theorem applyUpdates_updOf_company (r : Row) (op : Op8) :
    (applyUpdates r (updOf op)).company_id = r.company_id := by
  rcases op with ⟨oid, st, rt, uC, uT, uF, tnow⟩
  cases st <;> cases rt <;> rfl

theorem applyUpdates_updOf_contractor (r : Row) (op : Op8) :
    (applyUpdates r (updOf op)).contractor_id = r.contractor_id := by
  rcases op with ⟨oid, st, rt, uC, uT, uF, tnow⟩
  cases st <;> cases rt <;> rfl

/-- The strategy-independent effect of one request on the current payload:
status and rate replaced when the request names them, everything else
kept. -/
def payStep (op : Op8) (p : Pay) : Pay :=
  { p with status := getStr (op.st.map Val.str) p.status,
           rate := getInt (op.rt.map Val.int) p.rate }

theorem payC_derivedRow (latest : Row) (op : Op8) (u : String) :
    payC (derivedRow latest (updOf op) u) = payStep op (payC latest) := by
  unfold payC payStep derivedRow
  simp only [applyUpdates_updOf_status, applyUpdates_updOf_rate,
    applyUpdates_updOf_title, applyUpdates_updOf_company,
    applyUpdates_updOf_contractor]
  rw [applyUpdates_id _ _ (updOf_id_not_mem op)]

theorem maxTS_eq_iff {db : List RowTS} {r : RowTS} (hr : r ∈ db) :
    maxTS db r.id = some r.created_at ↔
      ∀ x ∈ db, x.id = r.id → x.created_at ≤ r.created_at := by
  constructor
  · intro h x hx hxid
    cases hl : latestRowTS db r.id with
    | none =>
      rw [maxTS, hl] at h
      cases h
    | some l =>
      rw [maxTS, hl, Option.map_some', Option.some.injEq] at h
      rw [← h]
      exact pickMax_le hl x hx hxid
  · intro h
    rcases @pickMax_isSome RowTS Nat _ (·.id) (·.created_at) db r.id r hr
      rfl with ⟨l, hl⟩
    have h1 : l.created_at ≤ r.created_at :=
      h l (pickMax_mem hl).1 (pickMax_mem hl).2
    have h2 : r.created_at ≤ l.created_at := pickMax_le hl r hr rfl
    rw [maxTS, show latestRowTS db r.id = some l from hl, Option.map_some',
      Option.some.injEq]
    omega

/-- The simulation invariant tying corresponding states of the three
strategy tables together: all rows belong to seeded entities, the declared
composite keys are collision-free, all timestamps lie below the clock
bound, and every entity has one maximal (respectively, one current) row in
each table, the three carrying the same business payload. -/
structure SimInv (ids : List String) (dbC : List Row) (dbT : List RowTS)
    (dbF : List RowFlag) (tmax : Nat) : Prop where
  cids : ∀ r ∈ dbC, r.id ∈ ids
  tids : ∀ r ∈ dbT, r.id ∈ ids
  fids : ∀ r ∈ dbF, r.id ∈ ids
  ckey : ∀ r ∈ dbC, ∀ r' ∈ dbC, r.id = r'.id → r.version = r'.version →
    r = r'
  tkey : ∀ r ∈ dbT, ∀ r' ∈ dbT, r.id = r'.id →
    r.created_at = r'.created_at → r = r'
  fkey : ∀ r ∈ dbF, ∀ r' ∈ dbF, r.id = r'.id → r.version = r'.version →
    r = r'
  tbound : ∀ r ∈ dbT, r.created_at ≤ tmax
  agree : ∀ i ∈ ids, ∃ (rc : Row) (rt : RowTS) (rf : RowFlag),
    rc ∈ dbC ∧ rc.id = i ∧
    (∀ x ∈ dbC, x.id = i → x.version ≤ rc.version) ∧
    rt ∈ dbT ∧ rt.id = i ∧
    (∀ x ∈ dbT, x.id = i → x.created_at ≤ rt.created_at) ∧
    rf ∈ dbF ∧ rf.id = i ∧ rf.is_current = true ∧
    (∀ x ∈ dbF, x.id = i → x.version ≤ rf.version) ∧
    (∀ x ∈ dbF, x.id = i → x.is_current = true → x = rf) ∧
    payC rc = payT rt ∧ payC rc = payF rf

/-- One request advances corresponding states of the three strategies in
lock-step: each create succeeds, appends one row carrying the same updated
payload, and the simulation invariant is re-established at the new clock
bound. -/
theorem sim_step {ids : List String} {dbC : List Row} {dbT : List RowTS}
    {dbF : List RowFlag} {tmax : Nat} (op : Op8)
    (inv : SimInv ids dbC dbT dbF tmax)
    (hoid : op.oid ∈ ids)
    (huC : ∀ x ∈ dbC, x.uid ≠ some op.uC)
    (huT : ∀ x ∈ dbT, x.uid ≠ op.uT)
    (huF : ∀ x ∈ dbF, x.uid ≠ op.uF)
    (htn : tmax < op.tnow) :
    ∃ (nc : Row) (nt : RowTS) (nf : RowFlag),
      SCDHelper.create_new_version dbC op.oid (updOf op) op.uC =
        .ok (dbC ++ [nc]) ∧
      TimestampVersioningHelper.create_new_version dbT op.oid (updOf op)
        op.tnow op.uT = .ok (dbT ++ [nt]) ∧
      FlagVersioningHelper.create_new_version dbF op.oid (updOf op) op.uF =
        .ok (dbF.map (clearIf op.oid) ++ [nf]) ∧
      SimInv ids (dbC ++ [nc]) (dbT ++ [nt])
        (dbF.map (clearIf op.oid) ++ [nf]) op.tnow ∧
      nc.uid = some op.uC ∧ nt.uid = op.uT ∧ nf.uid = op.uF := by
  obtain ⟨rc, rt, rf, hrcm, hrci, hrcx, hrtm, hrti, hrtx, hrfm, hrfi, hrfc,
    hrfx, hrfu, hpt, hpf⟩ := inv.agree op.oid hoid
  -- counter strategy
  rcases @pickMax_isSome Row Int _ (·.id) (·.version) dbC op.oid rc hrcm
    hrci with ⟨l, hl⟩
  have hlrc : l = rc := by
    have h1 : l.version ≤ rc.version :=
      hrcx l (pickMax_mem hl).1 (pickMax_mem hl).2
    have h2 : rc.version ≤ l.version := pickMax_le hl rc hrcm hrci
    refine inv.ckey l (pickMax_mem hl).1 rc hrcm ?_ (by omega)
    rw [(pickMax_mem hl).2, hrci]
  rw [hlrc] at hl
  have hCok := create_new_version_ok hl (updOf_id_not_mem op)
    (updOf_version_not_mem op) huC
  have hncid : (derivedRow rc (updOf op) op.uC).id = op.oid := by
    rw [derivedRow_id (updOf_id_not_mem op), hrci]
  have hncver : (derivedRow rc (updOf op) op.uC).version =
      rc.version + 1 := derivedRow_version (updOf_version_not_mem op)
  -- timestamp strategy
  rcases @pickMax_isSome RowTS Nat _ (·.id) (·.created_at) dbT op.oid rt
    hrtm hrti with ⟨lt, hlt⟩
  have hltrt : lt = rt := by
    have h1 : lt.created_at ≤ rt.created_at :=
      hrtx lt (pickMax_mem hlt).1 (pickMax_mem hlt).2
    have h2 : rt.created_at ≤ lt.created_at := pickMax_le hlt rt hrtm hrti
    refine inv.tkey lt (pickMax_mem hlt).1 rt hrtm ?_ (by omega)
    rw [(pickMax_mem hlt).2, hrti]
  rw [hltrt] at hlt
  have hTnow : ∀ x ∈ dbT, x.id = op.oid → x.created_at < op.tnow :=
    fun x hx _ => lt_of_le_of_lt (inv.tbound x hx) htn
  have hTok := ts_create_ok (updOf op) hlt huT hTnow
  -- flag strategy
  have hFex : ∃ r ∈ dbF, r.id = op.oid := ⟨rf, hrfm, hrfi⟩
  obtain ⟨o, hom, hoido, hover, hFok⟩ := flag_create_ok (updOf op) hFex huF
  have fkey1 : ∀ r ∈ dbF.map (clearIf op.oid),
      ∀ r' ∈ dbF.map (clearIf op.oid), r.id = r'.id →
      r.version = r'.version → r = r' := by
    rintro r hr r' hr' hid hver
    rcases List.mem_map.mp hr with ⟨y, hy, rfl⟩
    rcases List.mem_map.mp hr' with ⟨y', hy', rfl⟩
    have hyy : y = y' := by
      refine inv.fkey y hy y' hy' ?_ ?_
      · rw [← clearIf_id op.oid y, ← clearIf_id op.oid y']
        exact hid
      · rw [← clearIf_version op.oid y, ← clearIf_version op.oid y']
        exact hver
    rw [hyy]
  have hcrfid : (clearIf op.oid rf).id = op.oid := by
    rw [clearIf_id]
    exact hrfi
  have hms : maxVerF (dbF.map (clearIf op.oid)) op.oid = rf.version := by
    rcases @pickMax_isSome RowFlag Int _ (·.id) (·.version)
        (dbF.map (clearIf op.oid)) op.oid (clearIf op.oid rf)
        (List.mem_map_of_mem _ hrfm) hcrfid with ⟨lf, hlf⟩
    have h1 : lf.version ≤ rf.version := by
      rcases List.mem_map.mp (pickMax_mem hlf).1 with ⟨y, hy, rfl⟩
      rw [clearIf_version]
      refine hrfx y hy ?_
      have h4 : (clearIf op.oid y).id = op.oid := (pickMax_mem hlf).2
      rw [clearIf_id] at h4
      exact h4
    have h2 : rf.version ≤ lf.version := by
      have h3 := pickMax_le hlf (clearIf op.oid rf)
        (List.mem_map_of_mem _ hrfm) hcrfid
      rw [clearIf_version] at h3
      exact h3
    rw [maxVerF,
      show latestRowF (dbF.map (clearIf op.oid)) op.oid = some lf from hlf,
      Option.map_some', Option.getD_some]
    omega
  have ho : o = clearIf op.oid rf := by
    refine fkey1 o hom (clearIf op.oid rf) (List.mem_map_of_mem _ hrfm)
      ?_ ?_
    · rw [hoido, clearIf_id, hrfi]
    · rw [hover, hms, clearIf_version]
  have hostat : o.status = rf.status := by
    rw [ho]
    exact congrArg Pay.status (clearIf_pay op.oid rf)
  have horate : o.rate = rf.rate := by
    rw [ho]
    exact congrArg Pay.rate (clearIf_pay op.oid rf)
  have hotitle : o.title = rf.title := by
    rw [ho]
    exact congrArg Pay.title (clearIf_pay op.oid rf)
  have hocomp : o.company_id = rf.company_id := by
    rw [ho]
    exact congrArg Pay.company_id (clearIf_pay op.oid rf)
  have hocont : o.contractor_id = rf.contractor_id := by
    rw [ho]
    exact congrArg Pay.contractor_id (clearIf_pay op.oid rf)
  rw [hms] at hFok
  refine ⟨derivedRow rc (updOf op) op.uC,
    ⟨op.oid, op.tnow, op.uT, getStr (updGet (updOf op) "status") rt.status,
      getInt (updGet (updOf op) "rate") rt.rate, rt.title, rt.company_id,
      rt.contractor_id⟩,
    ⟨op.oid, rf.version + 1, op.uF, true,
      getStr (updGet (updOf op) "status") o.status,
      getInt (updGet (updOf op) "rate") o.rate, o.title, o.company_id,
      o.contractor_id⟩,
    hCok, hTok, hFok, ?_, rfl, rfl, rfl⟩
  have hTpay : payT ⟨op.oid, op.tnow, op.uT,
      getStr (updGet (updOf op) "status") rt.status,
      getInt (updGet (updOf op) "rate") rt.rate, rt.title, rt.company_id,
      rt.contractor_id⟩ = payStep op (payT rt) := by
    unfold payT payStep
    rw [updGet_updOf_status, updGet_updOf_rate, hrti]
  have hFpay : payF ⟨op.oid, rf.version + 1, op.uF, true,
      getStr (updGet (updOf op) "status") o.status,
      getInt (updGet (updOf op) "rate") o.rate, o.title, o.company_id,
      o.contractor_id⟩ = payStep op (payF rf) := by
    unfold payF payStep
    rw [updGet_updOf_status, updGet_updOf_rate, hostat, horate, hotitle,
      hocomp, hocont, hrfi]
  refine ⟨?_, ?_, ?_, ?_, ?_, ?_, ?_, ?_⟩
  · -- cids
    intro r hr
    rcases List.mem_append.mp hr with hr | hr
    · exact inv.cids r hr
    · rw [List.mem_singleton] at hr
      subst hr
      rw [hncid]
      exact hoid
  · -- tids
    intro r hr
    rcases List.mem_append.mp hr with hr | hr
    · exact inv.tids r hr
    · rw [List.mem_singleton] at hr
      subst hr
      exact hoid
  · -- fids
    intro r hr
    rcases List.mem_append.mp hr with hr | hr
    · rcases List.mem_map.mp hr with ⟨y, hy, rfl⟩
      rw [clearIf_id]
      exact inv.fids y hy
    · rw [List.mem_singleton] at hr
      subst hr
      exact hoid
  · -- ckey
    intro r hr r' hr' hidq hverq
    rcases List.mem_append.mp hr with hr | hr <;>
      rcases List.mem_append.mp hr' with hr' | hr'
    · exact inv.ckey r hr r' hr' hidq hverq
    · rw [List.mem_singleton] at hr'
      subst hr'
      exfalso
      have e1 : r.id = op.oid := by rw [hidq, hncid]
      have e2 : r.version = rc.version + 1 := by rw [hverq, hncver]
      have e3 := hrcx r hr e1
      omega
    · rw [List.mem_singleton] at hr
      subst hr
      exfalso
      have e1 : r'.id = op.oid := by
        rw [← hidq]
        exact hncid
      have e2 : r'.version = rc.version + 1 := by
        rw [← hverq]
        exact hncver
      have e3 := hrcx r' hr' e1
      omega
    · rw [List.mem_singleton] at hr hr'
      rw [hr, hr']
  · -- tkey
    intro r hr r' hr' hidq hverq
    rcases List.mem_append.mp hr with hr | hr <;>
      rcases List.mem_append.mp hr' with hr' | hr'
    · exact inv.tkey r hr r' hr' hidq hverq
    · rw [List.mem_singleton] at hr'
      subst hr'
      exfalso
      have e2 : r.created_at = op.tnow := hverq
      have e3 := inv.tbound r hr
      omega
    · rw [List.mem_singleton] at hr
      subst hr
      exfalso
      have e2 : r'.created_at = op.tnow := hverq.symm
      have e3 := inv.tbound r' hr'
      omega
    · rw [List.mem_singleton] at hr hr'
      rw [hr, hr']
  · -- fkey
    intro r hr r' hr' hidq hverq
    rcases List.mem_append.mp hr with hr | hr <;>
      rcases List.mem_append.mp hr' with hr' | hr'
    · exact fkey1 r hr r' hr' hidq hverq
    · rcases List.mem_map.mp hr with ⟨y, hy, rfl⟩
      rw [List.mem_singleton] at hr'
      subst hr'
      exfalso
      have e1 : y.id = op.oid := by
        have e0 := hidq
        rw [clearIf_id] at e0
        exact e0
      have e2 : y.version = rf.version + 1 := by
        have e0 := hverq
        rw [clearIf_version] at e0
        exact e0
      have e3 := hrfx y hy e1
      omega
    · rcases List.mem_map.mp hr' with ⟨y, hy, rfl⟩
      rw [List.mem_singleton] at hr
      subst hr
      exfalso
      have e1 : y.id = op.oid := by
        have e0 := hidq.symm
        rw [clearIf_id] at e0
        exact e0
      have e2 : y.version = rf.version + 1 := by
        have e0 := hverq.symm
        rw [clearIf_version] at e0
        exact e0
      have e3 := hrfx y hy e1
      omega
    · rw [List.mem_singleton] at hr hr'
      rw [hr, hr']
  · -- tbound
    intro r hr
    rcases List.mem_append.mp hr with hr | hr
    · exact le_trans (inv.tbound r hr) (le_of_lt htn)
    · rw [List.mem_singleton] at hr
      subst hr
      exact le_refl _
  · -- agree
    intro j hj
    by_cases hji : j = op.oid
    · subst hji
      refine ⟨derivedRow rc (updOf op) op.uC,
        ⟨op.oid, op.tnow, op.uT,
          getStr (updGet (updOf op) "status") rt.status,
          getInt (updGet (updOf op) "rate") rt.rate, rt.title,
          rt.company_id, rt.contractor_id⟩,
        ⟨op.oid, rf.version + 1, op.uF, true,
          getStr (updGet (updOf op) "status") o.status,
          getInt (updGet (updOf op) "rate") o.rate, o.title, o.company_id,
          o.contractor_id⟩,
        List.mem_append_right _ (List.mem_singleton.mpr rfl), hncid, ?_,
        List.mem_append_right _ (List.mem_singleton.mpr rfl), rfl, ?_,
        List.mem_append_right _ (List.mem_singleton.mpr rfl), rfl, rfl,
        ?_, ?_, ?_, ?_⟩
      · intro x hx hxid
        rcases List.mem_append.mp hx with hx | hx
        · have e3 := hrcx x hx hxid
          rw [hncver]
          omega
        · rw [List.mem_singleton] at hx
          subst hx
          exact le_refl _
      · intro x hx hxid
        rcases List.mem_append.mp hx with hx | hx
        · exact le_of_lt (lt_of_le_of_lt (inv.tbound x hx) htn)
        · rw [List.mem_singleton] at hx
          subst hx
          exact le_refl _
      · intro x hx hxid
        rcases List.mem_append.mp hx with hx | hx
        · rcases List.mem_map.mp hx with ⟨y, hy, rfl⟩
          show (clearIf op.oid y).version ≤ rf.version + 1
          rw [clearIf_version]
          have e1 : y.id = op.oid := by
            have e0 := hxid
            rw [clearIf_id] at e0
            exact e0
          have e3 := hrfx y hy e1
          omega
        · rw [List.mem_singleton] at hx
          subst hx
          exact le_refl _
      · intro x hx hxid hxcur
        rcases List.mem_append.mp hx with hx | hx
        · rcases List.mem_map.mp hx with ⟨y, hy, rfl⟩
          exfalso
          have e1 : y.id = op.oid := by
            have e0 := hxid
            rw [clearIf_id] at e0
            exact e0
          have e2 := clearIf_not_cur op.oid y e1
          rw [hxcur] at e2
          cases e2
        · rw [List.mem_singleton] at hx
          exact hx
      · rw [payC_derivedRow, hTpay, hpt]
      · rw [payC_derivedRow, hFpay, hpf]
    · obtain ⟨rcj, rtj, rfj, m1, i1, x1, m2, i2, x2, m3, i3, c3, x3, u3,
        p1, p2⟩ := inv.agree j hj
    
      have hrfj_ne : rfj.id ≠ op.oid := by
        rw [i3]
        exact hji
      have hcfj : clearIf op.oid rfj = rfj := clearIf_other _ _ hrfj_ne
      refine ⟨rcj, rtj, rfj, List.mem_append_left _ m1, i1, ?_,
        List.mem_append_left _ m2, i2, ?_, List.mem_append_left _ ?_, i3,
        c3, ?_, ?_, p1, p2⟩
      · intro x hx hxid
        rcases List.mem_append.mp hx with hx | hx
        · exact x1 x hx hxid
        · rw [List.mem_singleton] at hx
          subst hx
          exfalso
          rw [hncid] at hxid
          exact hji hxid.symm
      · intro x hx hxid
        rcases List.mem_append.mp hx with hx | hx
        · exact x2 x hx hxid
        · rw [List.mem_singleton] at hx
          subst hx
          exfalso
          have e0 : op.oid = j := hxid
          exact hji e0.symm
      · rw [← hcfj]
        exact List.mem_map_of_mem _ m3
      · intro x hx hxid
        rcases List.mem_append.mp hx with hx | hx
        · rcases List.mem_map.mp hx with ⟨y, hy, rfl⟩
          rw [clearIf_version]
          have e1 : y.id = j := by
            have e0 := hxid
            rw [clearIf_id] at e0
            exact e0
          exact x3 y hy e1
        · rw [List.mem_singleton] at hx
          subst hx
          exfalso
          have e0 : op.oid = j := hxid
          exact hji e0.symm
      · intro x hx hxid hxcur
        rcases List.mem_append.mp hx with hx | hx
        · rcases List.mem_map.mp hx with ⟨y, hy, rfl⟩
          have e1 : y.id = j := by
            have e0 := hxid
            rw [clearIf_id] at e0
            exact e0
          have e4 : clearIf op.oid y = y := by
            refine clearIf_other _ _ ?_
            rw [e1]
            exact hji
          rw [e4] at hxcur ⊢
          exact u3 y hy e1 hxcur
        · rw [List.mem_singleton] at hx
          subst hx
          exfalso
          have e0 : op.oid = j := hxid
          exact hji e0.symm

/-- Folding a request list over the three runs in lock-step: from any
invariant state whose pending uids are fresh and distinct and whose
pending clock values are strictly increasing above the bound, every call
of every strategy succeeds and the invariant holds at the end. -/
theorem sim_run (ops : List Op8) :
    ∀ (ids : List String) (dbC : List Row) (dbT : List RowTS)
      (dbF : List RowFlag) (tmax : Nat),
    SimInv ids dbC dbT dbF tmax →
    (∀ op ∈ ops, op.oid ∈ ids) →
    (dbC.map (·.uid) ++ ops.map (fun op => some op.uC)).Nodup →
    (dbT.map (·.uid) ++ ops.map (·.uT)).Nodup →
    (dbF.map (·.uid) ++ ops.map (·.uF)).Nodup →
    List.Pairwise (· < ·) (ops.map (·.tnow)) →
    (∀ op ∈ ops, tmax < op.tnow) →
    ∃ (dbC' : List Row) (dbT' : List RowTS) (dbF' : List RowFlag)
      (tmax' : Nat),
      runC8 ops dbC = .ok dbC' ∧ runT8 ops dbT = .ok dbT' ∧
      runF8 ops dbF = .ok dbF' ∧ SimInv ids dbC' dbT' dbF' tmax' := by
  induction ops with
  | nil =>
    intro ids dbC dbT dbF tmax inv _ _ _ _ _ _
    exact ⟨dbC, dbT, dbF, tmax, rfl, rfl, rfl, inv⟩
  | cons op rest ih =>
    intro ids dbC dbT dbF tmax inv h1 h2 h3 h4 h5 h6
    have huC : ∀ x ∈ dbC, x.uid ≠ some op.uC := by
      intro x hx heq
      rcases List.nodup_append.mp h2 with ⟨-, -, hdis⟩
      refine hdis (List.mem_map_of_mem _ hx) ?_
      rw [heq, List.map_cons]
      exact List.mem_cons_self _ _
    have huT : ∀ x ∈ dbT, x.uid ≠ op.uT := by
      intro x hx heq
      rcases List.nodup_append.mp h3 with ⟨-, -, hdis⟩
      refine hdis (List.mem_map_of_mem _ hx) ?_
      rw [heq, List.map_cons]
      exact List.mem_cons_self _ _
    have huF : ∀ x ∈ dbF, x.uid ≠ op.uF := by
      intro x hx heq
      rcases List.nodup_append.mp h4 with ⟨-, -, hdis⟩
      refine hdis (List.mem_map_of_mem _ hx) ?_
      rw [heq, List.map_cons]
      exact List.mem_cons_self _ _
    obtain ⟨nc, nt, nf, hCok, hTok, hFok, inv', hncu, hntu, hnfu⟩ :=
      sim_step op inv (h1 op (List.mem_cons_self op rest)) huC huT huF
        (h6 op (List.mem_cons_self op rest))
    have h1' : ∀ op' ∈ rest, op'.oid ∈ ids :=
      fun op' h => h1 op' (List.mem_cons_of_mem op h)
    have h2' : ((dbC ++ [nc]).map (·.uid) ++
        rest.map (fun op => some op.uC)).Nodup := by
      rw [List.map_append, List.append_assoc]
      have e : [nc].map (·.uid) = [some op.uC] := by
        rw [List.map_cons, List.map_nil, hncu]
      rw [e]
      rw [List.map_cons] at h2
      exact h2
    have h3' : ((dbT ++ [nt]).map (·.uid) ++ rest.map (·.uT)).Nodup := by
      rw [List.map_append, List.append_assoc]
      have e : [nt].map (·.uid) = [op.uT] := by
        rw [List.map_cons, List.map_nil, hntu]
      rw [e]
      rw [List.map_cons] at h3
      exact h3
    have h4' : ((dbF.map (clearIf op.oid) ++ [nf]).map (·.uid) ++
        rest.map (·.uF)).Nodup := by
      rw [List.map_append, List.append_assoc, map_uid_clearIf]
      have e : [nf].map (·.uid) = [op.uF] := by
        rw [List.map_cons, List.map_nil, hnfu]
      rw [e]
      rw [List.map_cons] at h4
      exact h4
    rw [List.map_cons] at h5
    have h5p := List.pairwise_cons.mp h5
    have h6' : ∀ op' ∈ rest, op.tnow < op'.tnow :=
      fun op' h => h5p.1 op'.tnow (List.mem_map_of_mem _ h)
    obtain ⟨dbC', dbT', dbF', tmax', r1, r2, r3, inv2⟩ :=
      ih ids (dbC ++ [nc]) (dbT ++ [nt])
        (dbF.map (clearIf op.oid) ++ [nf]) op.tnow inv' h1' h2' h3' h4'
        h5p.2 h6'
    refine ⟨dbC', dbT', dbF', tmax', ?_, ?_, ?_, inv2⟩
    · simp only [runC8, hCok]
      exact r1
    · simp only [runT8, hTok]
      exact r2
    · simp only [runF8, hFok]
      exact r3

theorem simInv_seed (ids : List String) :
    SimInv ids (seedC ids) (seedT ids) (seedF ids) 0 := by
  refine ⟨?_, ?_, ?_, ?_, ?_, ?_, ?_, ?_⟩
  · intro r hr
    rcases List.mem_map.mp hr with ⟨i, hi, rfl⟩
    exact hi
  · intro r hr
    rcases List.mem_map.mp hr with ⟨i, hi, rfl⟩
    exact hi
  · intro r hr
    rcases List.mem_map.mp hr with ⟨i, hi, rfl⟩
    exact hi
  · intro r hr r' hr' hid _
    rcases List.mem_map.mp hr with ⟨i, hi, rfl⟩
    rcases List.mem_map.mp hr' with ⟨i', hi', rfl⟩
    have e : i = i' := hid
    rw [e]
  · intro r hr r' hr' hid _
    rcases List.mem_map.mp hr with ⟨i, hi, rfl⟩
    rcases List.mem_map.mp hr' with ⟨i', hi', rfl⟩
    have e : i = i' := hid
    rw [e]
  · intro r hr r' hr' hid _
    rcases List.mem_map.mp hr with ⟨i, hi, rfl⟩
    rcases List.mem_map.mp hr' with ⟨i', hi', rfl⟩
    have e : i = i' := hid
    rw [e]
  · intro r hr
    rcases List.mem_map.mp hr with ⟨i, hi, rfl⟩
    exact le_refl 0
  · intro i hi
    refine ⟨⟨i, 1, some ("uidC-" ++ i), "active", 100, "Engineer", "comp1",
      "cont1"⟩,
      ⟨i, 0, "uidT-" ++ i, "active", 100, "Engineer", "comp1", "cont1"⟩,
      ⟨i, 1, "uidF-" ++ i, true, "active", 100, "Engineer", "comp1",
        "cont1"⟩,
      List.mem_map_of_mem _ hi, rfl, ?_, List.mem_map_of_mem _ hi, rfl,
      ?_, List.mem_map_of_mem _ hi, rfl, rfl, ?_, ?_, rfl, rfl⟩
    · intro x hx _
      rcases List.mem_map.mp hx with ⟨i', hi', rfl⟩
      exact le_refl 1
    · intro x hx _
      rcases List.mem_map.mp hx with ⟨i', hi', rfl⟩
      exact le_refl 0
    · intro x hx _
      rcases List.mem_map.mp hx with ⟨i', hi', rfl⟩
      exact le_refl 1
    · intro x hx hxid _
      rcases List.mem_map.mp hx with ⟨i', hi', rfl⟩
      have e : i' = i := hxid
      rw [e]

theorem mem_get_latest_C {db : List Row} {r : Row} :
    r ∈ SCDHelper.get_latest_versions db ↔
      (r ∈ db ∧ ∀ x ∈ db, x.id = r.id → x.version ≤ r.version) := by
  unfold SCDHelper.get_latest_versions
  rw [List.mem_filter]
  constructor
  · rintro ⟨hdb, hmax⟩
    rw [decide_eq_true_eq] at hmax
    exact ⟨hdb, (maxVer_eq_iff hdb).mp hmax⟩
  · rintro ⟨hdb, hmax⟩
    refine ⟨hdb, ?_⟩
    rw [decide_eq_true_eq]
    exact (maxVer_eq_iff hdb).mpr hmax

theorem mem_get_latest_T {db : List RowTS} {r : RowTS} :
    r ∈ TimestampVersioningHelper.get_latest_versions db ↔
      (r ∈ db ∧
        ∀ x ∈ db, x.id = r.id → x.created_at ≤ r.created_at) := by
  unfold TimestampVersioningHelper.get_latest_versions
  rw [List.mem_filter]
  constructor
  · rintro ⟨hdb, hmax⟩
    rw [decide_eq_true_eq] at hmax
    exact ⟨hdb, (maxTS_eq_iff hdb).mp hmax⟩
  · rintro ⟨hdb, hmax⟩
    refine ⟨hdb, ?_⟩
    rw [decide_eq_true_eq]
    exact (maxTS_eq_iff hdb).mpr hmax

theorem mem_get_latest_F {db : List RowFlag} {r : RowFlag} :
    r ∈ FlagVersioningHelper.get_latest_versions db ↔
      (r ∈ db ∧ r.is_current = true) := by
  unfold FlagVersioningHelper.get_latest_versions
  rw [List.mem_filter]

/-- Under the simulation invariant, the three bulk current-row results are
identical in payload content. -/
theorem simInv_latest {ids : List String} {dbC : List Row}
    {dbT : List RowTS} {dbF : List RowFlag} {tmax : Nat}
    (inv : SimInv ids dbC dbT dbF tmax) :
    ∀ p : Pay,
      (p ∈ (SCDHelper.get_latest_versions dbC).map payC ↔
        p ∈ (TimestampVersioningHelper.get_latest_versions dbT).map payT) ∧
      (p ∈ (SCDHelper.get_latest_versions dbC).map payC ↔
        p ∈ (FlagVersioningHelper.get_latest_versions dbF).map payF) := by
  intro p
  constructor
  · constructor
    · intro hp
      rcases List.mem_map.mp hp with ⟨r, hr, rfl⟩
      rcases mem_get_latest_C.mp hr with ⟨hdb, hmax⟩
      obtain ⟨rc, rt, rf, hrcm, hrci, hrcx, hrtm, hrti, hrtx, hrfm, hrfi,
        hrfc, hrfx, hrfu, hpt, hpf⟩ := inv.agree r.id (inv.cids r hdb)
      have hr_rc : r = rc := by
        refine inv.ckey r hdb rc hrcm hrci.symm ?_
        have e1 := hrcx r hdb rfl
        have e2 := hmax rc hrcm hrci
        omega
      rw [hr_rc, hpt]
      refine List.mem_map_of_mem _ (mem_get_latest_T.mpr ⟨hrtm, ?_⟩)
      intro x hx hxid
      rw [hrti] at hxid
      exact hrtx x hx hxid
    · intro hp
      rcases List.mem_map.mp hp with ⟨r, hr, rfl⟩
      rcases mem_get_latest_T.mp hr with ⟨hdb, hmax⟩
      obtain ⟨rc, rt, rf, hrcm, hrci, hrcx, hrtm, hrti, hrtx, hrfm, hrfi,
        hrfc, hrfx, hrfu, hpt, hpf⟩ := inv.agree r.id (inv.tids r hdb)
      have hr_rt : r = rt := by
        refine inv.tkey r hdb rt hrtm hrti.symm ?_
        have e1 := hrtx r hdb rfl
        have e2 := hmax rt hrtm hrti
        omega
      rw [hr_rt, ← hpt]
      refine List.mem_map_of_mem _ (mem_get_latest_C.mpr ⟨hrcm, ?_⟩)
      intro x hx hxid
      rw [hrci] at hxid
      exact hrcx x hx hxid
  · constructor
    · intro hp
      rcases List.mem_map.mp hp with ⟨r, hr, rfl⟩
      rcases mem_get_latest_C.mp hr with ⟨hdb, hmax⟩
      obtain ⟨rc, rt, rf, hrcm, hrci, hrcx, hrtm, hrti, hrtx, hrfm, hrfi,
        hrfc, hrfx, hrfu, hpt, hpf⟩ := inv.agree r.id (inv.cids r hdb)
      have hr_rc : r = rc := by
        refine inv.ckey r hdb rc hrcm hrci.symm ?_
        have e1 := hrcx r hdb rfl
        have e2 := hmax rc hrcm hrci
        omega
      rw [hr_rc, hpf]
      exact List.mem_map_of_mem _ (mem_get_latest_F.mpr ⟨hrfm, hrfc⟩)
    · intro hp
      rcases List.mem_map.mp hp with ⟨r, hr, rfl⟩
      rcases mem_get_latest_F.mp hr with ⟨hdb, hcur⟩
      obtain ⟨rc, rt, rf, hrcm, hrci, hrcx, hrtm, hrti, hrtx, hrfm, hrfi,
        hrfc, hrfx, hrfu, hpt, hpf⟩ := inv.agree r.id (inv.fids r hdb)
      have hr_rf : r = rf := hrfu r hdb rfl hcur
      rw [hr_rf, ← hpf]
      refine List.mem_map_of_mem _ (mem_get_latest_C.mpr ⟨hrcm, ?_⟩)
      intro x hx hxid
      rw [hrci] at hxid
      exact hrcx x hx hxid

/-- C8: running any sequence of create_version requests from the seeded
state against all three strategies at once — counter, timestamp and flag —
with fresh distinct uids per table and a strictly increasing clock, every
call succeeds and the three bulk current-row queries
(`SCDHelper.get_latest_versions`'s MAX(version) join,
`TimestampVersioningHelper.get_latest_versions`'s MAX(created_at) join and
`FlagVersioningHelper.get_latest_versions`'s is_current filter) return
identical results in content modulo uid and timestamp noise (payload
projection), and hence identical results under every payload predicate. -/
theorem claim_C8 (ids : List String) (ops : List Op8)
    (h1 : ∀ op ∈ ops, op.oid ∈ ids)
    (h2 : ((seedC ids).map (·.uid) ++
      ops.map (fun op => some op.uC)).Nodup)
    (h3 : ((seedT ids).map (·.uid) ++ ops.map (·.uT)).Nodup)
    (h4 : ((seedF ids).map (·.uid) ++ ops.map (·.uF)).Nodup)
    (h5 : List.Pairwise (· < ·) (ops.map (·.tnow)))
    (h6 : ∀ op ∈ ops, 0 < op.tnow) :
    ∃ (dbC : List Row) (dbT : List RowTS) (dbF : List RowFlag),
      runC8 ops (seedC ids) = .ok dbC ∧
      runT8 ops (seedT ids) = .ok dbT ∧
      runF8 ops (seedF ids) = .ok dbF ∧
      (∀ p : Pay, p ∈ (SCDHelper.get_latest_versions dbC).map payC ↔
        p ∈ (TimestampVersioningHelper.get_latest_versions dbT).map payT) ∧
      (∀ p : Pay, p ∈ (SCDHelper.get_latest_versions dbC).map payC ↔
        p ∈ (FlagVersioningHelper.get_latest_versions dbF).map payF) ∧
      (∀ (q : Pay → Bool) (p : Pay),
        (p ∈ ((SCDHelper.get_latest_versions dbC).map payC).filter q ↔
          p ∈ ((TimestampVersioningHelper.get_latest_versions dbT).map
            payT).filter q) ∧
        (p ∈ ((SCDHelper.get_latest_versions dbC).map payC).filter q ↔
          p ∈ ((FlagVersioningHelper.get_latest_versions dbF).map
            payF).filter q)) := by
  obtain ⟨dbC, dbT, dbF, tmax', r1, r2, r3, inv⟩ :=
    sim_run ops ids (seedC ids) (seedT ids) (seedF ids) 0
      (simInv_seed ids) h1 h2 h3 h4 h5 h6
  refine ⟨dbC, dbT, dbF, r1, r2, r3,
    fun p => (simInv_latest inv p).1, fun p => (simInv_latest inv p).2,
    ?_⟩
  intro q p
  constructor
  · rw [List.mem_filter, List.mem_filter]
    constructor
    · rintro ⟨hm, hq⟩
      exact ⟨(simInv_latest inv p).1.mp hm, hq⟩
    · rintro ⟨hm, hq⟩
      exact ⟨(simInv_latest inv p).1.mpr hm, hq⟩
  · rw [List.mem_filter, List.mem_filter]
    constructor
    · rintro ⟨hm, hq⟩
      exact ⟨(simInv_latest inv p).2.mp hm, hq⟩
    · rintro ⟨hm, hq⟩
      exact ⟨(simInv_latest inv p).2.mpr hm, hq⟩

/-- Seeded entities for the C8 witness. -/
def c8ids : List String := ["job1", "job2"]

/-- One benchmark-style request for the C8 witness: update job1's status
and rate at clock instant 1. -/
def c8ops : List Op8 := [⟨"job1", some "updated", some 150, "a1", "a2",
  "a3", 1⟩]

/-- Witness for C8 at the concrete seeded two-entity run. -/
theorem claim_C8_witness :
    ∃ (dbC : List Row) (dbT : List RowTS) (dbF : List RowFlag),
      runC8 c8ops (seedC c8ids) = .ok dbC ∧
      runT8 c8ops (seedT c8ids) = .ok dbT ∧
      runF8 c8ops (seedF c8ids) = .ok dbF ∧
      (∀ p : Pay, p ∈ (SCDHelper.get_latest_versions dbC).map payC ↔
        p ∈ (TimestampVersioningHelper.get_latest_versions dbT).map payT) ∧
      (∀ p : Pay, p ∈ (SCDHelper.get_latest_versions dbC).map payC ↔
        p ∈ (FlagVersioningHelper.get_latest_versions dbF).map payF) ∧
      (∀ (q : Pay → Bool) (p : Pay),
        (p ∈ ((SCDHelper.get_latest_versions dbC).map payC).filter q ↔
          p ∈ ((TimestampVersioningHelper.get_latest_versions dbT).map
            payT).filter q) ∧
        (p ∈ ((SCDHelper.get_latest_versions dbC).map payC).filter q ↔
          p ∈ ((FlagVersioningHelper.get_latest_versions dbF).map
            payF).filter q)) :=
  claim_C8 c8ids c8ops (by decide) (by decide) (by decide) (by decide)
    (by decide) (by decide)
